import Mathlib

/-!
Shallow embedding of the Laminar core pipeline
(crates/laminar-core: types.rs, validation.rs, zip321.rs, batch.rs,
ur_encoder.rs) together with proofs about the claims of its design
specification.

Rust strings are modelled as `List Char`; byte strings as `List Nat`
(each element < 256).  Machine integers (`u64`, `usize`) are modelled as
`Nat` with explicit overflow checks against `U64_MAX` where the source
performs checked arithmetic.  Fallible functions return `Except`.
External crates (zcash_address, sha2, uuid, ur) appear as explicit
function parameters or spec-modelled definitions; everything else is
translated directly from the Rust source.
-/

namespace Laminar

instance {ε α : Type} [DecidableEq ε] [DecidableEq α] :
    DecidableEq (Except ε α) := fun x y =>
  match x, y with
  | .error a, .error b => decidable_of_iff (a = b) (by simp)
  | .error _, .ok _ => isFalse (by simp)
  | .ok _, .error _ => isFalse (by simp)
  | .ok a, .ok b => decidable_of_iff (a = b) (by simp)

/-- Convert a string literal to its character list. -/
def str (s : String) : List Char := s.data

/-! ### Character and decimal-digit utilities -/

/-- ASCII digit test, mirroring Rust `u8::is_ascii_digit` on string bytes. -/
def isDigitChar (c : Char) : Bool := 48 ≤ c.toNat && c.toNat ≤ 57

/-- Numeric value of an ASCII digit character. -/
def charToDigit (c : Char) : Nat := c.toNat - 48

/-- The ASCII character for a decimal digit (0-9). -/
def digitChar : Nat → Char
  | 0 => '0' | 1 => '1' | 2 => '2' | 3 => '3' | 4 => '4'
  | 5 => '5' | 6 => '6' | 7 => '7' | 8 => '8' | 9 => '9'
  | _ => '*'

/-- Digit extraction with explicit fuel so that the kernel can evaluate
it (the equivalence with `Nat.digits` is proved below). -/
def natDigitsFuel : Nat → Nat → List Char
  | 0, _ => []
  | fuel + 1, n =>
    if n = 0 then [] else natDigitsFuel fuel (n / 10) ++ [digitChar (n % 10)]

/-- Decimal representation of a natural number, most significant digit
first; the rendering used by Rust `u64`/`usize` `Display`. -/
def natDigits (n : Nat) : List Char :=
  if n = 0 then ['0'] else natDigitsFuel n n

/-- Value of a most-significant-first decimal digit string. -/
def digitsVal (s : List Char) : Nat :=
  s.foldl (fun a c => 10 * a + charToDigit c) 0

/-- Splitting a character list at a separator character, mirroring Rust
`str::split`: always yields at least one (possibly empty) piece. -/
def splitOn (sep : Char) : List Char → List (List Char)
  | [] => [[]]
  | c :: rest =>
    if c = sep then [] :: splitOn sep rest
    else
      match splitOn sep rest with
      | [] => [[c]]
      | p :: ps => (c :: p) :: ps

/-- Rust `str::trim`, restricted to the ASCII whitespace classified by
`Char.isWhitespace` (sufficient for every input considered here). -/
def trim (s : List Char) : List Char :=
  ((s.dropWhile Char.isWhitespace).reverse.dropWhile Char.isWhitespace).reverse

/-- UTF-8 encoding of one character. -/
def utf8Bytes (c : Char) : List Nat :=
  let n := c.toNat
  if n < 0x80 then [n]
  else if n < 0x800 then [0xC0 + n / 64, 0x80 + n % 64]
  else if n < 0x10000 then
    [0xE0 + n / 4096, 0x80 + (n / 64) % 64, 0x80 + n % 64]
  else
    [0xF0 + n / 262144, 0x80 + (n / 4096) % 64, 0x80 + (n / 64) % 64,
      0x80 + n % 64]

/-- UTF-8 encoding of a string: Rust `str::as_bytes`. -/
def utf8Encode (s : List Char) : List Nat := s.flatMap utf8Bytes

/-- UTF-8 byte length of a string: Rust `str::len`. -/
def utf8Len (s : List Char) : Nat := (utf8Encode s).length

/-! ### types.rs: monetary constants and `Zatoshi` -/

def ZATOSHI_PER_ZEC : Nat := 100000000

def ZATOSHI_MIN : Nat := 1

def ZATOSHI_MAX : Nat := 2100000000000000

/-- Largest value of the Rust `u64` machine type. -/
def U64_MAX : Nat := 18446744073709551615

/-- error.rs `AmountError` (payload-carrying variants keep their payloads). -/
inductive AmountError
  | BelowMinimum
  | AboveMaximum (value : Nat)
  | EmptyInput
  | NegativeNotAllowed
  | InvalidFormat
  | InvalidNumeric
  | TooManyDecimals (decimals : Nat)
  | Overflow
  deriving DecidableEq, Repr

/-- Display text of an `AmountError` (error.rs `#[error(...)]` strings). -/
def AmountError.display : AmountError → List Char
  | .BelowMinimum => str "amount must be greater than zero"
  | .AboveMaximum v => str "amount exceeds maximum supply: " ++ natDigits v
  | .EmptyInput => str "amount input is empty"
  | .NegativeNotAllowed => str "negative amounts are not allowed"
  | .InvalidFormat => str "amount format is invalid"
  | .InvalidNumeric => str "amount contains non-numeric characters"
  | .TooManyDecimals d =>
      str "amount has too many decimal places: " ++ natDigits d ++
        str " (max 8)"
  | .Overflow => str "amount arithmetic overflow"

/-- `Zatoshi::new`: range check into `[ZATOSHI_MIN, ZATOSHI_MAX]`.
A `Zatoshi` value itself is modelled as the underlying `Nat`. -/
def Zatoshi.new (value : Nat) : Except AmountError Nat :=
  if value < ZATOSHI_MIN then .error .BelowMinimum
  else if ZATOSHI_MAX < value then .error (.AboveMaximum value)
  else .ok value

/-- types.rs `parse_u64_digits`: all-ASCII-digit check, then `u64` parse
(whose failure - empty input or overflow past `u64::MAX` - is mapped to
`AmountError::Overflow`). -/
def parse_u64_digits (input : List Char) : Except AmountError Nat :=
  if !input.all isDigitChar then .error .InvalidNumeric
  else if input.isEmpty then .error .Overflow
  else if U64_MAX < digitsVal input then .error .Overflow
  else .ok (digitsVal input)

/-- `Zatoshi::from_zec_str`: strict decimal-ZEC parser. -/
def from_zec_str (input : List Char) : Except AmountError Nat :=
  let trimmed := trim input
  if trimmed.isEmpty then .error .EmptyInput
  else if trimmed.head? = some '-' then .error .NegativeNotAllowed
  else
    match splitOn '.' trimmed with
    | [] => .error .InvalidFormat
    | whole_str :: restParts =>
      if 2 ≤ restParts.length then .error .InvalidFormat
      else if whole_str.isEmpty then .error .InvalidFormat
      else if !whole_str.all isDigitChar then .error .InvalidNumeric
      else
        match parse_u64_digits whole_str with
        | .error e => .error e
        | .ok whole =>
          if U64_MAX < whole * ZATOSHI_PER_ZEC then .error .Overflow
          else
            let whole_zat := whole * ZATOSHI_PER_ZEC
            let fracRes : Except AmountError Nat :=
              match restParts.head? with
              | none => .ok 0
              | some fraction =>
                if 8 < utf8Len fraction then
                  .error (.TooManyDecimals (utf8Len fraction))
                else if !fraction.isEmpty && !fraction.all isDigitChar then
                  .error .InvalidNumeric
                else
                  parse_u64_digits
                    (fraction ++ List.replicate (8 - utf8Len fraction) '0')
            match fracRes with
            | .error e => .error e
            | .ok frac_zat =>
              if U64_MAX < whole_zat + frac_zat then .error .Overflow
              else Zatoshi.new (whole_zat + frac_zat)

/-- Strip trailing `'0'` characters (`while frac_str.ends_with('0') pop`). -/
def stripTrailingZeros (s : List Char) : List Char :=
  (s.reverse.dropWhile (fun c => c = '0')).reverse

/-- Left-pad a digit string with `'0'` to width `k` (`format!("{frac:08}")`). -/
def zeroPadLeft (k : Nat) (s : List Char) : List Char :=
  List.replicate (k - s.length) '0' ++ s

/-- `Zatoshi::to_zec_string`: lowest-terms decimal rendering. -/
def to_zec_string (v : Nat) : List Char :=
  let whole := v / ZATOSHI_PER_ZEC
  let frac := v % ZATOSHI_PER_ZEC
  if frac = 0 then natDigits whole
  else
    natDigits whole ++
      '.' :: stripTrailingZeros (zeroPadLeft 8 (natDigits frac))

/-- `Zatoshi::checked_add`: `u64` checked addition followed by the range
check of `Zatoshi::new`. -/
def checked_add (a b : Nat) : Except AmountError Nat :=
  if U64_MAX < a + b then .error .Overflow
  else Zatoshi.new (a + b)

/-! ### error.rs: taxonomy codes (the subset used by the embedded core) -/

inductive TaxonomyCode
  | Validation1001
  | Validation1002
  | Validation1004
  | Validation1005
  | Validation1010
  | Validation1011
  | Validation1012
  | Validation1013
  | Handoff5005
  | Handoff5006
  | Handoff5007
  | Handoff5008
  deriving DecidableEq, Repr

/-- error.rs `TaxonomyCode::code`. -/
def TaxonomyCode.code : TaxonomyCode → Nat
  | .Validation1001 => 1001
  | .Validation1002 => 1002
  | .Validation1004 => 1004
  | .Validation1005 => 1005
  | .Validation1010 => 1010
  | .Validation1011 => 1011
  | .Validation1012 => 1012
  | .Validation1013 => 1013
  | .Handoff5005 => 5005
  | .Handoff5006 => 5006
  | .Handoff5007 => 5007
  | .Handoff5008 => 5008

/-- error.rs `TaxonomyError`: a taxonomy code plus a message. -/
structure TaxonomyError where
  code : TaxonomyCode
  message : List Char
  deriving DecidableEq, Repr

/-! ### validation.rs: data model -/

/-- types.rs `Network`. -/
inductive Network
  | Mainnet
  | Testnet
  deriving DecidableEq, Repr

/-- zcash_protocol `NetworkType` (external crate). -/
inductive NetworkType
  | Main
  | Test
  | Regtest
  deriving DecidableEq, Repr

/-- validation.rs `network_type`. -/
def network_type : Network → NetworkType
  | .Mainnet => .Main
  | .Testnet => .Test

/-- Debug rendering of `NetworkType` (used in the 1005 message). -/
def NetworkType.debugStr : NetworkType → List Char
  | .Main => str "Main"
  | .Test => str "Test"
  | .Regtest => str "Regtest"

/-- validation.rs `RawRow`. -/
structure RawRow where
  row_number : Nat
  address : List Char
  amount_zec : Option (List Char)
  amount_zatoshis : Option (List Char)
  memo : Option (List Char)
  label : Option (List Char)
  deriving DecidableEq, Repr

/-- validation.rs `RecipientAddressType`. -/
inductive RecipientAddressType
  | Unified
  | Sapling
  | Transparent
  deriving DecidableEq, Repr

/-- types.rs `Recipient` (the amount is a `Zatoshi` value). -/
structure Recipient where
  address : List Char
  amount : Nat
  memo : Option (List Char)
  label : Option (List Char)
  deriving DecidableEq, Repr

/-- validation.rs `ValidatedRecipient`. -/
structure ValidatedRecipient where
  row_number : Nat
  address_type : RecipientAddressType
  recipient : Recipient
  deriving DecidableEq, Repr

/-- validation.rs `ValidatedBatch`. -/
structure ValidatedBatch where
  recipients : List ValidatedRecipient
  total : Nat
  network : Network
  warnings : List (List Char)
  deriving DecidableEq, Repr

/-- validation.rs `BatchValidationIssue`. -/
structure BatchValidationIssue where
  code : TaxonomyCode
  row_number : Option Nat
  column : Option (List Char)
  message : List Char
  deriving DecidableEq, Repr

/-- types.rs `BatchConfig`. -/
structure BatchConfig where
  network : Network
  max_recipients : Nat
  source_file : List Char
  deriving DecidableEq, Repr

/-- validation.rs `ParsedAddressMeta`: what the external `zcash_address`
conversion yields on success. -/
structure ParsedAddressMeta where
  network : NetworkType
  kind : RecipientAddressType
  deriving DecidableEq, Repr

/-- Failure of the external address decoding: either
`ZcashAddress::try_from_encoded` fails (malformed encoding) or the
`convert::<ParsedAddressMeta>` step fails (unsupported address family,
e.g. sprout).  The payload is the error display text. -/
inductive AddressDecodeError
  | encoding (msg : List Char)
  | unsupported (msg : List Char)
  deriving DecidableEq, Repr

/-- The external `zcash_address` decoder, kept abstract: the claims about
validate_batch hold for every decoder behaviour. -/
def AddressDecoder : Type :=
  List Char → Except AddressDecodeError ParsedAddressMeta

/-! ### validation.rs: row validators -/

/-- `str::starts_with` for a literal pattern. -/
def startsWith : List Char → List Char → Bool
  | [], _ => true
  | _ :: _, [] => false
  | p :: ps, c :: cs => p = c && startsWith ps cs

/-- validation.rs `validate_address_row`. -/
def validate_address_row (decode : AddressDecoder) (row : RawRow)
    (expected_network : Network) :
    Except BatchValidationIssue RecipientAddressType :=
  let address := trim row.address
  if address.isEmpty then
    .error ⟨.Validation1001, some row.row_number, some (str "address"),
      str "address is empty"⟩
  else
    match decode address with
    | .error (.encoding msg) =>
      .error ⟨.Validation1001, some row.row_number, some (str "address"),
        str "invalid address encoding: " ++ msg⟩
    | .error (.unsupported msg) =>
      .error ⟨.Validation1001, some row.row_number, some (str "address"),
        str "unsupported address type: " ++ msg⟩
    | .ok metadata =>
      let expected := network_type expected_network
      if metadata.network ≠ expected then
        .error ⟨.Validation1005, some row.row_number, some (str "address"),
          str "network mismatch: expected " ++ expected.debugStr ++
            str ", got " ++ metadata.network.debugStr⟩
      else
        -- The source's guarded match arms: an arm whose prefix guard
        -- fails returns the 1001 error; every other combination falls
        -- through to `Ok(metadata.kind)`.
        match metadata.kind, expected_network with
        | .Unified, .Mainnet =>
          if startsWith (str "u1") address then .ok metadata.kind
          else .error ⟨.Validation1001, some row.row_number,
            some (str "address"),
            str "invalid unified mainnet prefix (expected u1)"⟩
        | .Unified, .Testnet =>
          if startsWith (str "utest1") address then .ok metadata.kind
          else .error ⟨.Validation1001, some row.row_number,
            some (str "address"),
            str "invalid unified testnet prefix (expected utest1)"⟩
        | .Sapling, .Mainnet =>
          if startsWith (str "zs") address then .ok metadata.kind
          else .error ⟨.Validation1001, some row.row_number,
            some (str "address"),
            str "invalid sapling mainnet prefix (expected zs)"⟩
        | .Sapling, .Testnet =>
          if startsWith (str "ztestsapling") address then .ok metadata.kind
          else .error ⟨.Validation1001, some row.row_number,
            some (str "address"),
            str "invalid sapling testnet prefix (expected ztestsapling)"⟩
        | .Transparent, .Mainnet =>
          if startsWith (str "t1") address || startsWith (str "t3") address
            then .ok metadata.kind
          else .error ⟨.Validation1001, some row.row_number,
            some (str "address"),
            str "invalid transparent mainnet prefix (expected t1 or t3)"⟩
        | _, _ => .ok metadata.kind

/-- validation.rs `parse_zatoshis_str`. -/
def parse_zatoshis_str (value : List Char) : Except AmountError Nat :=
  if value.head? = some '-' then .error .NegativeNotAllowed
  else if value.isEmpty then .error .EmptyInput
  else if !value.all isDigitChar then .error .InvalidNumeric
  else if U64_MAX < digitsVal value then .error .Overflow
  else Zatoshi.new (digitsVal value)

/-- validation.rs `validate_amount_row` (minor-unit string wins when
present; both are trimmed before inspection). -/
def validate_amount_row (row : RawRow) :
    Except BatchValidationIssue Nat :=
  let parsed : Except AmountError Nat :=
    match row.amount_zatoshis with
    | some zatRaw =>
      let zat := trim zatRaw
      if zat.isEmpty then .error .EmptyInput else parse_zatoshis_str zat
    | none =>
      match row.amount_zec with
      | some zecRaw =>
        let zec := trim zecRaw
        if zec.isEmpty then .error .EmptyInput else from_zec_str zec
      | none => .error .EmptyInput
  match parsed with
  | .ok amount => .ok amount
  | .error err =>
    .error ⟨.Validation1002, some row.row_number, some (str "amount"),
      str "invalid amount: " ++ err.display⟩

/-- validation.rs `validate_memo_row` (length measured in UTF-8 bytes). -/
def validate_memo_row (row : RawRow) :
    Except BatchValidationIssue (Option (List Char)) :=
  match row.memo with
  | none => .ok none
  | some memo =>
    if 512 < utf8Len memo then
      .error ⟨.Validation1004, some row.row_number, some (str "memo"),
        str "memo exceeds 512 bytes"⟩
    else .ok (some memo)

/-! ### validation.rs: `validate_batch` -/

/-- The issues contributed by one `Err` result (`if let Err(issue) = ...`). -/
def errList {α : Type} : Except BatchValidationIssue α →
    List BatchValidationIssue
  | .error i => [i]
  | .ok _ => []

/-- `HashMap::get` over the first-seen-address map (modelled as an
association list; only `get` and fresh `insert` are used). -/
def lookupSeen : List (List Char × Nat) → List Char → Option Nat
  | [], _ => none
  | (a, n) :: rest, key => if a = key then some n else lookupSeen rest key

def overflowIssue (row_number : Nat) : BatchValidationIssue :=
  ⟨.Validation1013, some row_number, some (str "amount"),
    str "batch total overflow while summing zatoshis"⟩

def transparentMemoWarning (row_number : Nat) : List Char :=
  str "row " ++ natDigits row_number ++
    str ": memo ignored for transparent address (transparent recipients do not support memos)"

def duplicateWarning (address : List Char) (row_number first_row : Nat) :
    List Char :=
  str "duplicate address '" ++ address ++ str "' at row " ++
    natDigits row_number ++ str " (first seen at row " ++
    natDigits first_row ++ str ")"

/-- Mutable state of the `for row in rows` loop of `validate_batch`. -/
structure LoopState where
  issues : List BatchValidationIssue
  warnings : List (List Char)
  validated : List ValidatedRecipient
  seen : List (List Char × Nat)
  total : Option Nat
  deriving DecidableEq, Repr

/-- One iteration of the `validate_batch` row loop. -/
def processRow (decode : AddressDecoder) (net : Network) (st : LoopState)
    (row : RawRow) : LoopState :=
  let address_result := validate_address_row decode row net
  let amount_result := validate_amount_row row
  let memo_result := validate_memo_row row
  let issues1 := st.issues ++
    (errList address_result ++ errList amount_result ++ errList memo_result)
  match address_result, amount_result, memo_result with
  | .ok address_type, .ok amount, .ok memo0 =>
    let memoNonempty : Bool :=
      match memo0 with
      | some m => !m.isEmpty
      | none => false
    let dropMemo : Bool :=
      (address_type = RecipientAddressType.Transparent) && memoNonempty
    let warnings1 :=
      if dropMemo then st.warnings ++ [transparentMemoWarning row.row_number]
      else st.warnings
    let memo1 := if dropMemo then none else memo0
    let normalized_address := trim row.address
    let warnings2 :=
      match lookupSeen st.seen normalized_address with
      | some first_row =>
        warnings1 ++ [duplicateWarning normalized_address row.row_number first_row]
      | none => warnings1
    let seen1 :=
      match lookupSeen st.seen normalized_address with
      | some _ => st.seen
      | none => st.seen ++ [(normalized_address, row.row_number)]
    let issues2 :=
      match st.total with
      | some current =>
        match checked_add current amount with
        | .ok _ => issues1
        | .error _ => issues1 ++ [overflowIssue row.row_number]
      | none => issues1
    let total1 :=
      match st.total with
      | some current =>
        match checked_add current amount with
        | .ok next => some next
        | .error _ => some current
      | none => some amount
    { issues := issues2,
      warnings := warnings2,
      validated := st.validated ++
        [⟨row.row_number, address_type,
          ⟨normalized_address, amount, memo1, row.label.map trim⟩⟩],
      seen := seen1,
      total := total1 }
  | _, _, _ => { st with issues := issues1 }

/-- The whole row loop. -/
def runRows (decode : AddressDecoder) (net : Network) :
    LoopState → List RawRow → LoopState
  | st, [] => st
  | st, row :: rest => runRows decode net (processRow decode net st row) rest

/-- The effective recipient cap of `validate_batch`. -/
def batchLimit (config : BatchConfig) : Nat :=
  if config.max_recipients = 0 then 500 else min config.max_recipients 500

def emptyBatchIssue : BatchValidationIssue :=
  ⟨.Validation1012, none, none, str "batch has no rows"⟩

def limitIssue (nRows limit : Nat) : BatchValidationIssue :=
  ⟨.Validation1011, none, none,
    str "batch has " ++ natDigits nRows ++ str " rows; max allowed is " ++
      natDigits limit⟩

def noValidIssue : BatchValidationIssue :=
  ⟨.Validation1012, none, none, str "batch has no valid recipients"⟩

/-- Issues recorded by `validate_batch` before the row loop runs. -/
def initState (rows : List RawRow) (config : BatchConfig) : LoopState :=
  { issues :=
      (if rows.isEmpty then [emptyBatchIssue] else []) ++
      (if batchLimit config < rows.length then
        [limitIssue rows.length (batchLimit config)] else []),
    warnings := [], validated := [], seen := [], total := none }

/-- validation.rs `validate_batch`. -/
def validate_batch (decode : AddressDecoder) (rows : List RawRow)
    (config : BatchConfig) :
    Except (List BatchValidationIssue) ValidatedBatch :=
  let fin := runRows decode config.network (initState rows config) rows
  if fin.issues.isEmpty then
    match fin.total with
    | none => .error [noValidIssue]
    | some total =>
      .ok ⟨fin.validated, total, config.network, fin.warnings⟩
  else .error fin.issues

/-! ### zip321.rs: canonical URI construction -/

/-- Standard padded base64 (the external `base64` STANDARD engine,
modelled from the spec: memo bytes use standard, padded base64). -/
def b64Char (n : Nat) : Char :=
  (str "ABCDEFGHIJKLMNOPQRSTUVWXYZabcdefghijklmnopqrstuvwxyz0123456789+/").getD
    n '?'

def base64_encode : List Nat → List Char
  | [] => []
  | [a] => [b64Char (a / 4 % 64), b64Char (a % 4 * 16), '=', '=']
  | [a, b] =>
    [b64Char (a / 4 % 64), b64Char (a % 4 * 16 + b / 16),
      b64Char (b % 16 * 4), '=']
  | a :: b :: c :: rest =>
    [b64Char (a / 4 % 64), b64Char (a % 4 * 16 + b / 16),
      b64Char (b % 16 * 4 + c / 64), b64Char (c % 64)] ++ base64_encode rest

/-- `Vec::join(sep)` over strings. -/
def joinSep (sep : List Char) : List (List Char) → List Char
  | [] => []
  | [x] => x
  | x :: xs => x ++ sep ++ joinSep sep xs

/-- `memo.as_deref().filter(|memo| !memo.is_empty())`. -/
def memoFiltered (memo : Option (List Char)) : Option (List Char) :=
  match memo with
  | some m => if m.isEmpty then none else some m
  | none => none

/-- Parameter list pushed for the single-recipient branch. -/
def singleParams (vr : ValidatedRecipient) : List (List Char) :=
  [str "amount=" ++ to_zec_string vr.recipient.amount] ++
  (match memoFiltered vr.recipient.memo with
   | some m => [str "memo=" ++ base64_encode (utf8Encode m)]
   | none => [])

/-- Parameters pushed for recipient `index` in the multi-recipient branch. -/
def multiParams (index : Nat) (vr : ValidatedRecipient) : List (List Char) :=
  let suffix := if index = 0 then [] else '.' :: natDigits index
  [str "address" ++ suffix ++ str "=" ++ vr.recipient.address,
   str "amount" ++ suffix ++ str "=" ++ to_zec_string vr.recipient.amount] ++
  (match memoFiltered vr.recipient.memo with
   | some m => [str "memo" ++ suffix ++ str "=" ++ base64_encode (utf8Encode m)]
   | none => [])

/-- zip321.rs `build_zip321_uri`. -/
def build_zip321_uri : List ValidatedRecipient → List Char
  | [] => str "zcash:"
  | [vr] =>
    let params := singleParams vr
    str "zcash:" ++ vr.recipient.address ++
      (if params.isEmpty then [] else '?' :: joinSep (str "&") params)
  | recipients =>
    str "zcash:?" ++
      joinSep (str "&")
        ((recipients.enum.map (fun p => multiParams p.1 p.2)).flatten)

/-- zip321.rs `hex_char`. -/
def hexChar (nibble : Nat) : Char :=
  if nibble < 10 then digitChar nibble
  else match nibble with
    | 10 => 'a' | 11 => 'b' | 12 => 'c' | 13 => 'd' | 14 => 'e' | 15 => 'f'
    | _ => '*'

/-- zip321.rs `to_lower_hex`. -/
def to_lower_hex (data : List Nat) : List Char :=
  data.flatMap (fun byte => [hexChar (byte / 16 % 16), hexChar (byte % 16)])

/-- zip321.rs / batch.rs `sum_total` loop body over the amounts. -/
def sum_total_go : Option Nat → List Nat → Except Unit Nat
  | total, [] =>
    match total with
    | some t => .ok t
    | none => .error ()
  | total, a :: rest =>
    match total with
    | some current =>
      match checked_add current a with
      | .ok next => sum_total_go (some next) rest
      | .error _ => .error ()
    | none => sum_total_go (some a) rest

/-- zip321.rs `sum_total`. -/
def sum_total (recipients : List ValidatedRecipient) : Except Unit Nat :=
  sum_total_go none (recipients.map (fun vr => vr.recipient.amount))

/-- 9999-12-31T23:59:59Z in Unix seconds (zip321.rs `upper_bound`). -/
def SECONDS_UPPER_BOUND : Nat := 253402300799

/-- `u64::from_be_bytes`. -/
def bytesToU64BE (bytes : List Nat) : Nat :=
  bytes.foldl (fun a b => 256 * a + b) 0

/-- zip321.rs `deterministic_created_at`; the resulting `DateTime` is
modelled by its seconds-since-epoch value.  The digest always has 32
bytes (sha2 output), of which the first 8 are used. -/
def deterministic_created_at (digest : List Nat) : Nat :=
  bytesToU64BE (digest.take 8) % SECONDS_UPPER_BOUND

/-- types.rs `TransactionIntent`; `id` is the UUID as a 128-bit number and
`created_at` the timestamp in Unix seconds. -/
structure TransactionIntent where
  schema_version : List Char
  id : Nat
  created_at : Nat
  network : Network
  recipients : List Recipient
  total_zat : Nat
  zip321_uri : List Char
  payload_bytes : Nat
  payload_hash : List Char
  deriving DecidableEq, Repr

def ZIP321_SCHEMA_VERSION : List Char := str "1.0"

def ZIP321_UUID_NAMESPACE : Nat := 0x4f68b80f0ec552f483570b6b89df8754

/-- zip321.rs `construct_zip321`.  The external hash primitives are
explicit parameters: `sha256` (the sha2 crate digest, 32 bytes) and
`uuid_v5` (the uuid crate name-based UUID of namespace and name bytes). -/
def construct_zip321 (sha256 : List Nat → List Nat)
    (uuid_v5 : Nat → List Nat → Nat) (batch : ValidatedBatch) :
    Except TaxonomyError TransactionIntent :=
  if batch.recipients.isEmpty then
    .error ⟨.Validation1012,
      str "cannot construct ZIP-321 URI for empty recipient set"⟩
  else
    let uri := build_zip321_uri batch.recipients
    let payload_bytes := utf8Len uri
    let digest := sha256 (utf8Encode uri)
    let payload_hash := str "sha256:" ++ to_lower_hex digest
    let id := uuid_v5 ZIP321_UUID_NAMESPACE digest
    let created_at := deterministic_created_at digest
    match sum_total batch.recipients with
    | .error _ =>
      .error ⟨.Validation1013,
        str "overflow while summing recipients for ZIP-321 construction"⟩
    | .ok total_zat =>
      .ok { schema_version := ZIP321_SCHEMA_VERSION, id := id,
            created_at := created_at, network := batch.network,
            recipients := batch.recipients.map (fun v => v.recipient),
            total_zat := total_zat, zip321_uri := uri,
            payload_bytes := payload_bytes, payload_hash := payload_hash }

/-! ### batch.rs: greedy segmentation -/

/-- batch.rs `SegmentedBatch`. -/
structure SegmentedBatch where
  segments : List TransactionIntent
  max_payload_bytes : Nat
  original_recipient_count : Nat
  deriving DecidableEq, Repr

/-- batch.rs `construct_segment`. -/
def construct_segment (sha256 : List Nat → List Nat)
    (uuid_v5 : Nat → List Nat → Nat) (recipients : List ValidatedRecipient)
    (network : Network) : Except TaxonomyError TransactionIntent :=
  match sum_total recipients with
  | .error _ =>
    .error ⟨.Validation1013, str "overflow while summing segment recipients"⟩
  | .ok total =>
    construct_zip321 sha256 uuid_v5 ⟨recipients, total, network, []⟩

def oversizedRowIssue (row_number budget : Nat) : TaxonomyError :=
  ⟨.Validation1010,
    str "single recipient at row " ++ natDigits row_number ++
      str " exceeds payload limit of " ++ natDigits budget ++ str " bytes"⟩

/-- The `for recipient in &batch.recipients` loop of `segment_batch`:
`current` is the open segment, `segments` the closed ones. -/
def segGo (sha256 : List Nat → List Nat) (uuid_v5 : Nat → List Nat → Nat)
    (network : Network) (max_payload_bytes : Nat)
    (current : List ValidatedRecipient) (segments : List TransactionIntent) :
    List ValidatedRecipient → Except TaxonomyError (List TransactionIntent)
  | [] =>
    if current.isEmpty then .ok segments
    else
      match construct_segment sha256 uuid_v5 current network with
      | .error e => .error e
      | .ok intent => .ok (segments ++ [intent])
  | recipient :: rest =>
    let current1 := current ++ [recipient]
    let uri := build_zip321_uri current1
    if utf8Len uri ≤ max_payload_bytes then
      segGo sha256 uuid_v5 network max_payload_bytes current1 segments rest
    else if current.isEmpty then
      .error (oversizedRowIssue recipient.row_number max_payload_bytes)
    else
      match construct_segment sha256 uuid_v5 current network with
      | .error e => .error e
      | .ok intent =>
        let overflow_uri := build_zip321_uri [recipient]
        if max_payload_bytes < utf8Len overflow_uri then
          .error (oversizedRowIssue recipient.row_number max_payload_bytes)
        else
          segGo sha256 uuid_v5 network max_payload_bytes [recipient]
            (segments ++ [intent]) rest

/-- batch.rs `segment_batch`. -/
def segment_batch (sha256 : List Nat → List Nat)
    (uuid_v5 : Nat → List Nat → Nat) (batch : ValidatedBatch)
    (max_payload_bytes : Nat) : Except TaxonomyError SegmentedBatch :=
  if max_payload_bytes = 0 then
    .error ⟨.Validation1005, str "max_payload_bytes must be greater than zero"⟩
  else if batch.recipients.isEmpty then
    .error ⟨.Validation1012, str "cannot segment an empty validated batch"⟩
  else
    match segGo sha256 uuid_v5 batch.network max_payload_bytes [] []
        batch.recipients with
    | .error e => .error e
    | .ok segments =>
      .ok ⟨segments, max_payload_bytes, batch.recipients.length⟩

/-! ### Spec-side canonical URI (for the refinement claim C1) -/

/-- Modelled from the spec (§4.4): the parameter block the canonical URI
carries for recipient `index` of a multi-recipient request:
`address<suf>=<addr>&amount<suf>=<amt>[&memo<suf>=<b64>]`, where the
suffix is empty for the first recipient and `.i` for recipient `i ≥ 1`,
and the memo parameter appears only when the memo is present and
non-empty. -/
def canonicalRecipientBlock (index : Nat) (vr : ValidatedRecipient) :
    List Char :=
  let suffix := if index = 0 then [] else '.' :: natDigits index
  str "address" ++ suffix ++ str "=" ++ vr.recipient.address ++
    str "&amount" ++ suffix ++ str "=" ++ to_zec_string vr.recipient.amount ++
    (match memoFiltered vr.recipient.memo with
     | some m => str "&memo" ++ suffix ++ str "=" ++ base64_encode (utf8Encode m)
     | none => [])

/-- Modelled from the spec (§4.4): the canonical ZIP-321 URI.  Single
recipient: `zcash:<address>?amount=<decimal-money>[&memo=<base64>]` with
the memo parameter omitted when absent or empty.  Multiple recipients:
`zcash:?` followed by the recipient parameter blocks in list order,
joined by `&`. -/
def canonical_zip321_uri : List ValidatedRecipient → List Char
  | [] => str "zcash:"
  | [vr] =>
    str "zcash:" ++ vr.recipient.address ++ str "?amount=" ++
      to_zec_string vr.recipient.amount ++
      (match memoFiltered vr.recipient.memo with
       | some m => str "&memo=" ++ base64_encode (utf8Encode m)
       | none => [])
  | recipients =>
    str "zcash:?" ++
      joinSep (str "&")
        (recipients.enum.map (fun p => canonicalRecipientBlock p.1 p.2))

/-! ### ur_encoder.rs: multi-part fragment codec

ur_encoder.rs performs its own input validation and error mapping but
delegates the fragment framing itself to the external `ur` crate
(`ur::Encoder::bytes`, `fragment_count`, `next_part`;
`ur::Decoder::default`, `receive`, `message`).  As with the other
external crates (sha2, uuid, zcash_address), those operations are
abstracted: an encoder is any state machine presenting the crate's
interface, a decoder likewise, and the round-trip theorem holds for
every pair of implementations satisfying the crate's round-trip
contract `URRoundTrips`. -/

/-- Interface of `ur::Encoder` as used by ur_encoder.rs: `bytes` builds
an encoder over a payload and a maximum fragment length (fallibly, with
an error message), `fragment_count` reports the number of parts, and
`next_part` emits the next fragment string, advancing the state. -/
structure UREncoderOps (sigma : Type) where
  bytes : List Nat → Nat → Except (List Char) sigma
  fragment_count : sigma → Nat
  next_part : sigma → Except (List Char) (List Char × sigma)

/-- Interface of `ur::Decoder` as used by ur_encoder.rs: the
`Decoder::default()` starting state, a fallible `receive` for one
fragment, and `message`, which yields `some payload` once the received
parts suffice and `none` while they do not. -/
structure URDecoderOps (delta : Type) where
  dfltState : delta
  receive : delta → List Char → Except (List Char) delta
  message : delta → Except (List Char) (Option (List Nat))

/-- The fragment-collection loop of `encode_ur_fragments`
(`for _ in 0..total { fragments.push(encoder.next_part()?) }`): `total`
calls to `next_part`, pushing each fragment in order and aborting on the
first error, which is mapped to Handoff5006. -/
def encodeLoop {sigma : Type} (E : UREncoderOps sigma) :
    Nat → sigma → Except TaxonomyError (List (List Char))
  | 0, _ => .ok []
  | total + 1, st =>
    match E.next_part st with
    | .error err =>
      .error ⟨.Handoff5006, str "failed to emit UR fragment: " ++ err⟩
    | .ok (part, st2) =>
      match encodeLoop E total st2 with
      | .error e => .error e
      | .ok rest => .ok (part :: rest)

/-- ur_encoder.rs `encode_ur_fragments`, over any implementation `E` of
the `ur` crate's encoder interface. -/
def encode_ur_fragments {sigma : Type} (E : UREncoderOps sigma)
    (payload : List Nat) (max_fragment_len : Nat) :
    Except TaxonomyError (List (List Char)) :=
  if payload.isEmpty then
    .error ⟨.Handoff5005, str "UR payload must not be empty"⟩
  else if max_fragment_len = 0 then
    .error ⟨.Handoff5005, str "UR max fragment length must be greater than zero"⟩
  else
    match E.bytes payload max_fragment_len with
    | .error err =>
      .error ⟨.Handoff5005, str "failed to create UR encoder: " ++ err⟩
    | .ok encoder => encodeLoop E (E.fragment_count encoder) encoder

/-- The receive loop of `decode_ur_fragments`
(`for fragment in fragments { decoder.receive(fragment)?; }`), each
failure mapped to Handoff5007. -/
def decodeLoop {delta : Type} (D : URDecoderOps delta) :
    List (List Char) → delta → Except TaxonomyError delta
  | [], st => .ok st
  | fragment :: rest, st =>
    match D.receive st fragment with
    | .error err =>
      .error ⟨.Handoff5007, str "failed to decode UR fragment: " ++ err⟩
    | .ok st2 => decodeLoop D rest st2

/-- ur_encoder.rs `decode_ur_fragments`, over any implementation `D` of
the `ur` crate's decoder interface. -/
def decode_ur_fragments {delta : Type} (D : URDecoderOps delta)
    (fragments : List (List Char)) : Except TaxonomyError (List Nat) :=
  if fragments.isEmpty then
    .error ⟨.Handoff5007, str "UR fragment list must not be empty"⟩
  else
    match decodeLoop D fragments D.dfltState with
    | .error e => .error e
    | .ok st =>
      match D.message st with
      | .error err =>
        .error ⟨.Handoff5008, str "failed to finalize UR decode: " ++ err⟩
      | .ok none =>
        .error ⟨.Handoff5008,
          str "UR decoder is incomplete after all provided fragments"⟩
      | .ok (some msg) => .ok msg

/-- The fragment sequence an encoder state emits: `k` successful calls
to `next_part` in order, `none` if any call fails. -/
def nextParts {sigma : Type} (E : UREncoderOps sigma) :
    Nat → sigma → Option (List (List Char))
  | 0, _ => some []
  | k + 1, st =>
    match E.next_part st with
    | .error _ => none
    | .ok (part, st2) =>
      match nextParts E k st2 with
      | some rest => some (part :: rest)
      | none => none

/-- Feeding a fragment list to a decoder state in order, `none` if any
`receive` fails. -/
def receiveAll {delta : Type} (D : URDecoderOps delta) :
    List (List Char) → delta → Option delta
  | [], st => some st
  | fragment :: rest, st =>
    match D.receive st fragment with
    | .error _ => none
    | .ok st2 => receiveAll D rest st2

/-- The `ur` crate's round-trip contract at a given payload and
fragment size: building an encoder succeeds, it emits its
`fragment_count` (at least one) parts without error, and a fresh
decoder that receives exactly those parts in order reports the original
payload as its message. -/
def URRoundTrips {sigma delta : Type} (E : UREncoderOps sigma)
    (D : URDecoderOps delta) (payload : List Nat) (s : Nat) : Prop :=
  ∃ st parts stFin,
    E.bytes payload s = .ok st ∧
    0 < E.fragment_count st ∧
    nextParts E (E.fragment_count st) st = some parts ∧
    receiveAll D parts D.dfltState = some stFin ∧
    D.message stFin = .ok (some payload)

/-! #### A concrete instance of the codec interface

The real `ur` crate is external to the repository; the following small
codec (raw chunks framed as `ur:bytes/<i>-<n>/<hex>`) is NOT a model of
it.  It exists only as one concrete implementation of the interface
that demonstrably satisfies `URRoundTrips`, so that the round-trip
theorem can be witnessed at a concrete input. -/

def chunksByFuel (size : Nat) : Nat → List Nat → List (List Nat)
  | 0, _ => []
  | _, [] => []
  | fuel + 1, b :: rest =>
    (b :: rest.take (size - 1)) ::
      chunksByFuel size fuel (rest.drop (size - 1))

/-- Split a byte list into chunks of at most `size` bytes (the fuel is
only a structural-recursion device; `l.length` steps always suffice). -/
def chunksBy (size : Nat) (l : List Nat) : List (List Nat) :=
  chunksByFuel size l.length l

/-- Fragment body encoding of a byte chunk in the demonstration codec. -/
def bodyEncode (bytes : List Nat) : List Char := to_lower_hex bytes

def hexVal (c : Char) : Option Nat :=
  if isDigitChar c then some (charToDigit c)
  else if 97 ≤ c.toNat ∧ c.toNat ≤ 102 then some (c.toNat - 87)
  else none

def bodyDecode : List Char → Option (List Nat)
  | [] => some []
  | [_] => none
  | hi :: lo :: rest =>
    match hexVal hi, hexVal lo, bodyDecode rest with
    | some h, some l, some bs => some ((16 * h + l) :: bs)
    | _, _, _ => none

/-- One frame of the demonstration codec. -/
def mkURPart (index total : Nat) (body : List Char) : List Char :=
  str "ur:bytes/" ++ natDigits index ++ '-' :: natDigits total ++ '/' :: body

/-- Option-valued map over a list: `none` as soon as one element fails. -/
def mapOption {A B : Type} (f : A → Option B) : List A → Option (List B)
  | [] => some []
  | a :: rest =>
    match f a, mapOption f rest with
    | some b, some bs => some (b :: bs)
    | _, _ => none

def parseNatDigits (s : List Char) : Option Nat :=
  if s ≠ [] ∧ s.all isDigitChar then some (digitsVal s) else none

/-- Parsing one frame of the demonstration codec. -/
def parseURPart (fragment : List Char) : Option (Nat × Nat × List Nat) :=
  if startsWith (str "ur:bytes/") fragment then
    match splitOn '/' (fragment.drop 9) with
    | [indices, body] =>
      match splitOn '-' indices with
      | [iS, nS] =>
        match parseNatDigits iS, parseNatDigits nS, bodyDecode body with
        | some i, some n, some bytes =>
          if 1 ≤ i ∧ i ≤ n ∧ body ≠ [] then some (i, n, bytes) else none
        | _, _, _ => none
      | _ => none
    | _ => none
  else none

/-- Demonstration encoder: state = (chunks still to emit, next 1-based
index, total part count). -/
def demoEnc : UREncoderOps (List (List Nat) × Nat × Nat) :=
  ⟨fun p s => .ok (chunksBy s p, 1, (chunksBy s p).length),
   fun st => st.2.2,
   fun st =>
     match st.1 with
     | [] => .error (str "no more parts")
     | c :: rest =>
       .ok (mkURPart st.2.1 st.2.2 (bodyEncode c), rest, st.2.1 + 1, st.2.2)⟩

/-- Demonstration decoder: state = the parsed parts received so far;
`message` reassembles once a part is present for every index and all
parts agree on the total. -/
def demoDec : URDecoderOps (List (Nat × Nat × List Nat)) :=
  ⟨[],
   fun st f =>
     match parseURPart f with
     | none => .error (str "invalid fragment")
     | some part => .ok (st ++ [part]),
   fun st =>
     match st with
     | [] => .ok none
     | p0 :: rest =>
       if ((p0 :: rest).all (fun p => p.2.1 = p0.2.1)) then
         match mapOption
             (fun j => (((p0 :: rest)).find? (fun p => p.1 = j + 1)).map
               (fun p => p.2.2))
             (List.range p0.2.1) with
         | some bodies => .ok (some bodies.flatten)
         | none => .ok none
       else .error (str "inconsistent totals")⟩

/-! ### Helper notions named by the claims -/

/-- The validation issues a single row contributes (C3). -/
def rowIssues (decode : AddressDecoder) (net : Network) (row : RawRow) :
    List BatchValidationIssue :=
  errList (validate_address_row decode row net) ++
    errList (validate_amount_row row) ++ errList (validate_memo_row row)

/-- A row that passes all three column validators (C8). -/
def RowOk (decode : AddressDecoder) (net : Network) (row : RawRow) : Prop :=
  (validate_address_row decode row net).isOk = true ∧
    (validate_amount_row row).isOk = true ∧
    (validate_memo_row row).isOk = true

/-- The amount a row parses to (0 when the row's amount is invalid). -/
def rowAmountD (row : RawRow) : Nat :=
  match validate_amount_row row with
  | .ok a => a
  | .error _ => 0

/-! ### Concrete fixtures used by witnesses and counterexamples -/

/-- A concrete degenerate stand-in for SHA-256 (any function works for
the determinism/shape claims; witnesses only need something concrete). -/
def shaZ : List Nat → List Nat := fun _ => List.replicate 32 0

/-- A concrete degenerate stand-in for UUID v5 derivation. -/
def uuidZ : Nat → List Nat → Nat := fun _ _ => 0

/-- A decoder accepting every address as mainnet transparent. -/
def decodeAcceptT : AddressDecoder := fun _ => .ok ⟨.Main, .Transparent⟩

/-- A decoder rejecting every address. -/
def decodeReject : AddressDecoder := fun _ => .error (.encoding (str "bad"))

def ADDR_T1 : List Char := str "t1Hsc1LR8yKnbbe3twRp88p6vFfC5t7DLbs"

def CFG_500 : BatchConfig := ⟨.Mainnet, 500, str "batch.csv"⟩

def CFG_0 : BatchConfig := ⟨.Mainnet, 0, str "batch.csv"⟩

def CFG_2 : BatchConfig := ⟨.Mainnet, 2, str "batch.csv"⟩

/-- A valid raw row paying 1.5 ZEC to the transparent address. -/
def ROW_OK : RawRow :=
  ⟨1, ADDR_T1, some (str "1.5"), none, none, none⟩

/-- A raw row with an empty address (always invalid, decoder not
consulted) and a valid amount. -/
def ROW_EMPTY_ADDR : RawRow :=
  ⟨1, [], some (str "1"), none, none, none⟩

def rowOkAt (n : Nat) : RawRow := ⟨n, ADDR_T1, some (str "1"), none, none, none⟩

/-- A validated recipient fixture. -/
def vrFix (n : Nat) (amount : Nat) (memo : Option (List Char)) :
    ValidatedRecipient :=
  ⟨n, .Transparent, ⟨ADDR_T1, amount, memo, none⟩⟩

/-- The scenario recipient of C1: address `t1Hsc…`, amount 1.5 ZEC,
memo "hello". -/
def VR_SAMPLE : ValidatedRecipient := vrFix 1 150000000 (some (str "hello"))

/-- Two equal-content batches that differ in stored total and warnings. -/
def BATCH_A : ValidatedBatch :=
  ⟨[vrFix 1 100000000 none, vrFix 2 1 none], 100000001, .Mainnet, []⟩

def BATCH_B : ValidatedBatch :=
  ⟨[vrFix 1 100000000 none, vrFix 2 1 none], 5, .Mainnet, [str "w"]⟩

/-- A single-recipient batch for the segmentation witness. -/
def BATCH_ONE : ValidatedBatch :=
  ⟨[vrFix 1 100000000 none], 100000000, .Mainnet, []⟩

/-- A raw row carrying the maximum supply in minor units. -/
def ROW_MAX : RawRow :=
  ⟨1, ADDR_T1, none, some (str "2100000000000000"), none, none⟩

/-- The validated batch produced for `[ROW_OK]`. -/
def VB_OK : ValidatedBatch :=
  ⟨[⟨1, .Transparent, ⟨ADDR_T1, 150000000, none, none⟩⟩], 150000000,
    .Mainnet, []⟩

/-- The transaction intent produced for `BATCH_ONE` under `shaZ`/`uuidZ`. -/
def INTENT_ONE : TransactionIntent :=
  ⟨str "1.0", 0, 0, .Mainnet, [⟨ADDR_T1, 100000000, none, none⟩], 100000000,
    str "zcash:t1Hsc1LR8yKnbbe3twRp88p6vFfC5t7DLbs?amount=1", 50,
    str "sha256:" ++ List.replicate 64 '0'⟩

/-- The segmented batch produced for `BATCH_ONE` with budget 10000. -/
def SB_ONE : SegmentedBatch := ⟨[INTENT_ONE], 10000, 1⟩

/-! ### Lemmas about decimal-digit strings -/

theorem natDigitsFuel_eq (fuel n : Nat) (h : n ≤ fuel) :
    natDigitsFuel fuel n = ((Nat.digits 10 n).map digitChar).reverse := by
  induction fuel generalizing n with
  | zero =>
    interval_cases n
    simp [natDigitsFuel]
  | succ fuel ih =>
    by_cases h0 : n = 0
    · subst h0; simp [natDigitsFuel]
    · have hlt : n / 10 ≤ fuel := by omega
      rw [natDigitsFuel, if_neg h0, ih _ hlt,
        Nat.digits_def' (by norm_num : (1:ℕ) < 10) (Nat.pos_of_ne_zero h0)]
      simp

theorem natDigits_eq (n : Nat) :
    natDigits n =
      if n = 0 then ['0'] else ((Nat.digits 10 n).map digitChar).reverse := by
  by_cases h : n = 0
  · simp [natDigits, h]
  · simp [natDigits, h, natDigitsFuel_eq n n le_rfl]

theorem isDigitChar_digitChar {d : Nat} (h : d < 10) :
    isDigitChar (digitChar d) = true := by
  interval_cases d <;> decide

theorem charToDigit_digitChar {d : Nat} (h : d < 10) :
    charToDigit (digitChar d) = d := by
  interval_cases d <;> decide

theorem natDigits_all_digits (n : Nat) :
    ∀ c ∈ natDigits n, isDigitChar c = true := by
  rw [natDigits_eq]
  by_cases h : n = 0
  · simp only [h, if_true]
    intro c hc
    rw [List.mem_singleton] at hc
    subst hc
    decide
  · simp only [h, if_false, List.mem_reverse, List.mem_map]
    rintro c ⟨d, hd, rfl⟩
    exact isDigitChar_digitChar (Nat.digits_lt_base (by norm_num) hd)

theorem natDigits_ne_nil (n : Nat) : natDigits n ≠ [] := by
  rw [natDigits_eq]
  by_cases h : n = 0
  · simp [h]
  · simpa [h] using Nat.digits_ne_nil_iff_ne_zero.mpr h

theorem digitsVal_from (l : List Char) (a : Nat) :
    List.foldl (fun a c => 10 * a + charToDigit c) a l =
      a * 10 ^ l.length + digitsVal l := by
  induction l generalizing a with
  | nil => simp [digitsVal]
  | cons c tl ih =>
    have hv : digitsVal (c :: tl) = charToDigit c * 10 ^ tl.length + digitsVal tl := by
      show List.foldl _ (10 * 0 + charToDigit c) tl = _
      rw [ih]; ring_nf
    rw [List.foldl_cons, ih, hv]
    simp only [List.length_cons, pow_succ]
    ring

theorem digitsVal_append_singleton (xs : List Char) (c : Char) :
    digitsVal (xs ++ [c]) = 10 * digitsVal xs + charToDigit c := by
  unfold digitsVal
  rw [List.foldl_append]
  simp

theorem digitsVal_map_digitChar (ds : List Nat) (h : ∀ d ∈ ds, d < 10) :
    digitsVal ((ds.map digitChar).reverse) = Nat.ofDigits 10 ds := by
  induction ds with
  | nil => simp [digitsVal]
  | cons d tl ih =>
    have hd : d < 10 := h d (by simp)
    have htl : ∀ x ∈ tl, x < 10 := fun x hx => h x (by simp [hx])
    simp only [List.map_cons, List.reverse_cons]
    rw [digitsVal_append_singleton, ih htl, Nat.ofDigits_cons,
      charToDigit_digitChar hd]
    ring

theorem digitsVal_natDigits (n : Nat) : digitsVal (natDigits n) = n := by
  rw [natDigits_eq]
  by_cases h : n = 0
  · simp [h]; decide
  · rw [if_neg h,
      digitsVal_map_digitChar _ (fun d hd => Nat.digits_lt_base (by norm_num) hd),
      Nat.ofDigits_digits]

theorem natDigits_length_le {n k : Nat} (hk : 0 < k) (h : n < 10 ^ k) :
    (natDigits n).length ≤ k := by
  rw [natDigits_eq]
  by_cases h0 : n = 0
  · simpa [h0] using hk
  · rw [if_neg h0]
    simp only [List.length_reverse, List.length_map]
    have hb := Nat.base_pow_length_digits_le 10 n (by norm_num) h0
    have h10 : 10 * n < 10 ^ (k + 1) := by
      rw [pow_succ, mul_comm]
      exact Nat.mul_lt_mul_of_lt_of_le h (le_refl 10) (by norm_num)
    have : (10:ℕ) ^ (Nat.digits 10 n).length < 10 ^ (k + 1) :=
      lt_of_le_of_lt hb h10
    have := (Nat.pow_lt_pow_iff_right (by norm_num : 1 < 10)).mp this
    omega

theorem digitsVal_all_zero {s : List Char} (h : ∀ c ∈ s, c = '0') :
    digitsVal s = 0 := by
  induction s with
  | nil => rfl
  | cons c tl ih =>
    have hc : c = '0' := h c (by simp)
    have : digitsVal (c :: tl) = List.foldl (fun a c => 10 * a + charToDigit c)
        (10 * 0 + charToDigit c) tl := rfl
    rw [this, digitsVal_from, hc]
    have : digitsVal tl = 0 := ih (fun x hx => h x (by simp [hx]))
    simp [this, charToDigit]

theorem digitsVal_append (A B : List Char) :
    digitsVal (A ++ B) = digitsVal A * 10 ^ B.length + digitsVal B := by
  have h : digitsVal (A ++ B) =
      List.foldl (fun a c => 10 * a + charToDigit c) (digitsVal A) B := by
    unfold digitsVal
    rw [List.foldl_append]
  rw [h, digitsVal_from]

theorem digitsVal_append_zeros (A : List Char) (m : Nat) :
    digitsVal (A ++ List.replicate m '0') = digitsVal A * 10 ^ m := by
  rw [digitsVal_append, @digitsVal_all_zero (List.replicate m '0') (by simp)]
  simp

theorem digitsVal_zeroPad (k : Nat) (s : List Char) :
    digitsVal (zeroPadLeft k s) = digitsVal s := by
  unfold zeroPadLeft
  rw [digitsVal_append,
    @digitsVal_all_zero (List.replicate (k - s.length) '0') (by simp)]
  simp

/-! ### Lemmas about `splitOn`, `trim`, `stripTrailingZeros` -/

theorem splitOn_no_sep {sep : Char} {s : List Char} (h : ∀ c ∈ s, c ≠ sep) :
    splitOn sep s = [s] := by
  induction s with
  | nil => rfl
  | cons c rest ih =>
    have hc : c ≠ sep := h c (by simp)
    have hrest : splitOn sep rest = [rest] := ih (fun x hx => h x (by simp [hx]))
    simp [splitOn, hc, hrest]

theorem splitOn_append_sep {sep : Char} {A B : List Char}
    (h : ∀ c ∈ A, c ≠ sep) :
    splitOn sep (A ++ sep :: B) = A :: splitOn sep B := by
  induction A with
  | nil => simp [splitOn]
  | cons c A' ih =>
    have hc : c ≠ sep := h c (by simp)
    have hA' : splitOn sep (A' ++ sep :: B) = A' :: splitOn sep B :=
      ih (fun x hx => h x (by simp [hx]))
    simp [splitOn, hc, hA']

theorem dropWhile_all_false {p : Char → Bool} {s : List Char}
    (h : ∀ c ∈ s, p c = false) : s.dropWhile p = s := by
  cases s with
  | nil => rfl
  | cons c l => rw [List.dropWhile_cons, h c (by simp)]; simp

theorem not_ws_of_isDigitChar {c : Char} (h : isDigitChar c = true) :
    c.isWhitespace = false := by
  have h48 : 48 ≤ c.toNat ∧ c.toNat ≤ 57 := by
    simpa [isDigitChar, Bool.and_eq_true, decide_eq_true_eq] using h
  by_contra hws
  have hws' : c.isWhitespace = true := by
    cases hw : c.isWhitespace
    · exact absurd hw hws
    · rfl
  have hcases := hws'
  simp only [Char.isWhitespace, Bool.or_eq_true, decide_eq_true_eq] at hcases
  rcases hcases with ((h | h) | h) | h <;> subst h <;> exact absurd h48 (by decide)

theorem dot_not_ws : ('.').isWhitespace = false := by decide

theorem trim_eq_self {s : List Char}
    (h : ∀ c ∈ s, c.isWhitespace = false) : trim s = s := by
  unfold trim
  rw [dropWhile_all_false h, dropWhile_all_false (by simpa using h),
    List.reverse_reverse]

theorem stripTrailing_restore (s : List Char) :
    ∃ m, s = stripTrailingZeros s ++ List.replicate m '0' := by
  refine ⟨(s.reverse.takeWhile (fun c => decide (c = '0'))).length, ?_⟩
  have htake : s.reverse.takeWhile (fun c => decide (c = '0')) =
      List.replicate
        (s.reverse.takeWhile (fun c => decide (c = '0'))).length '0' := by
    rw [List.eq_replicate_iff]
    refine ⟨rfl, fun b hb => ?_⟩
    simpa using List.mem_takeWhile_imp hb
  conv_lhs => rw [← List.reverse_reverse s,
    ← List.takeWhile_append_dropWhile (fun c => decide (c = '0')) s.reverse]
  rw [List.reverse_append]
  unfold stripTrailingZeros
  congr 1
  rw [htake, List.reverse_replicate]
  simp

theorem stripTrailing_ne_nil {s : List Char} (hval : digitsVal s ≠ 0) :
    stripTrailingZeros s ≠ [] := by
  intro hnil
  unfold stripTrailingZeros at hnil
  have : s.reverse.dropWhile (fun c => c = '0') = [] := by
    have := congrArg List.reverse hnil
    simpa using this
  have hall : ∀ c ∈ s.reverse, c = '0' := by
    intro c hc
    have := List.dropWhile_eq_nil_iff.mp this c hc
    simpa using this
  exact hval (digitsVal_all_zero (fun c hc => hall c (by simpa using hc)))

theorem stripTrailing_subset {s : List Char} :
    ∀ c ∈ stripTrailingZeros s, c ∈ s := by
  intro c hc
  unfold stripTrailingZeros at hc
  rw [List.mem_reverse] at hc
  have := (List.dropWhile_sublist _).subset hc
  simpa using this

/-! ### Evaluating `from_zec_str` on well-formed decimal strings -/

theorem isDigitChar_iff {c : Char} :
    isDigitChar c = true ↔ 48 ≤ c.toNat ∧ c.toNat ≤ 57 := by
  simp [isDigitChar, Bool.and_eq_true, decide_eq_true_eq]

theorem digit_ne_dash {c : Char} (h : isDigitChar c = true) : c ≠ '-' := by
  intro hc
  subst hc
  exact absurd (isDigitChar_iff.mp h) (by decide)

theorem digit_ne_dot {c : Char} (h : isDigitChar c = true) : c ≠ '.' := by
  intro hc
  subst hc
  exact absurd (isDigitChar_iff.mp h) (by decide)

theorem charToDigit_le_9 {c : Char} (h : isDigitChar c = true) :
    charToDigit c ≤ 9 := by
  have := isDigitChar_iff.mp h
  unfold charToDigit
  omega

theorem digitsVal_lt_pow {s : List Char} (h : ∀ c ∈ s, isDigitChar c = true) :
    digitsVal s < 10 ^ s.length := by
  induction s with
  | nil => simp [digitsVal]
  | cons c tl ih =>
    have hc : charToDigit c ≤ 9 := charToDigit_le_9 (h c (by simp))
    have htl : digitsVal tl < 10 ^ tl.length :=
      ih (fun x hx => h x (by simp [hx]))
    have hv : digitsVal (c :: tl) =
        charToDigit c * 10 ^ tl.length + digitsVal tl := by
      show List.foldl _ (10 * 0 + charToDigit c) tl = _
      rw [digitsVal_from]; ring_nf
    rw [hv, List.length_cons, pow_succ]
    calc charToDigit c * 10 ^ tl.length + digitsVal tl
        < charToDigit c * 10 ^ tl.length + 10 ^ tl.length := by omega
      _ = (charToDigit c + 1) * 10 ^ tl.length := by ring
      _ ≤ 10 * 10 ^ tl.length := by
          have : charToDigit c + 1 ≤ 10 := by omega
          exact Nat.mul_le_mul_right _ this
      _ = 10 ^ tl.length * 10 := by ring

theorem utf8Len_digits {s : List Char} (h : ∀ c ∈ s, isDigitChar c = true) :
    utf8Len s = s.length := by
  induction s with
  | nil => rfl
  | cons c tl ih =>
    have hc := isDigitChar_iff.mp (h c (by simp))
    have h1 : utf8Bytes c = [c.toNat] := by
      unfold utf8Bytes
      rw [if_pos (by omega)]
    have : utf8Len (c :: tl) = (utf8Bytes c).length + utf8Len tl := by
      unfold utf8Len utf8Encode
      simp
    rw [this, h1, ih (fun x hx => h x (by simp [hx]))]
    simp
    omega

theorem parse_u64_digits_ok {s : List Char}
    (hd : ∀ c ∈ s, isDigitChar c = true) (hne : s ≠ [])
    (hle : digitsVal s ≤ U64_MAX) :
    parse_u64_digits s = .ok (digitsVal s) := by
  unfold parse_u64_digits
  have hall : s.all isDigitChar = true := List.all_eq_true.mpr hd
  rw [hall]
  simp only [Bool.not_true, Bool.false_eq_true, if_false]
  rw [if_neg (by simpa [List.isEmpty_iff] using hne), if_neg (by omega)]

/-- Evaluation of `from_zec_str` on a plain digit string. -/
theorem from_zec_str_digits (W : List Char)
    (hWd : ∀ c ∈ W, isDigitChar c = true) (hne : W ≠ [])
    (h1 : digitsVal W ≤ U64_MAX)
    (h2 : digitsVal W * ZATOSHI_PER_ZEC ≤ U64_MAX) :
    from_zec_str W = Zatoshi.new (digitsVal W * ZATOSHI_PER_ZEC) := by
  obtain ⟨w, W', rfl⟩ := List.exists_cons_of_ne_nil hne
  have hwd : isDigitChar w = true := hWd w (by simp)
  have hwne : ¬ (w = '-') := digit_ne_dash hwd
  have htrim : trim (w :: W') = w :: W' :=
    trim_eq_self (fun c hc => not_ws_of_isDigitChar (hWd c hc))
  have hsplit : splitOn '.' (w :: W') = [w :: W'] :=
    splitOn_no_sep (fun c hc => digit_ne_dot (hWd c hc))
  have hall : (w :: W').all isDigitChar = true := List.all_eq_true.mpr hWd
  have hparse := parse_u64_digits_ok hWd hne h1
  have hn2 : ¬ (U64_MAX < digitsVal (w :: W') * ZATOSHI_PER_ZEC) :=
    not_lt.mpr h2
  have hn3 : ¬ (U64_MAX < digitsVal (w :: W') * ZATOSHI_PER_ZEC + 0) := by
    simpa using hn2
  unfold from_zec_str
  simp only [htrim, hsplit, List.isEmpty_cons, Bool.false_eq_true, if_false,
    List.head?_cons, Option.some.injEq, hwne, List.length_nil, hall,
    Bool.not_true, hparse, List.head?_nil, hn2, hn3, add_zero]
  rw [if_neg (by omega)]

/-- Evaluation of `from_zec_str` on a digit string with a fractional part
of at most 8 digit characters (possibly zero of them). -/
theorem from_zec_str_digits_frac (W F : List Char)
    (hWd : ∀ c ∈ W, isDigitChar c = true) (hne : W ≠ [])
    (hFd : ∀ c ∈ F, isDigitChar c = true) (hFlen : F.length ≤ 8)
    (h1 : digitsVal W ≤ U64_MAX)
    (h2 : digitsVal W * ZATOSHI_PER_ZEC ≤ U64_MAX)
    (h3 : digitsVal W * ZATOSHI_PER_ZEC +
      digitsVal F * 10 ^ (8 - F.length) ≤ U64_MAX) :
    from_zec_str (W ++ '.' :: F) =
      Zatoshi.new (digitsVal W * ZATOSHI_PER_ZEC +
        digitsVal F * 10 ^ (8 - F.length)) := by
  obtain ⟨w, W', rfl⟩ := List.exists_cons_of_ne_nil hne
  have hwd : isDigitChar w = true := hWd w (by simp)
  have hws : ∀ c ∈ (w :: W') ++ '.' :: F, c.isWhitespace = false := by
    intro c hc
    rcases List.mem_append.mp hc with hc | hc
    · exact not_ws_of_isDigitChar (hWd c hc)
    · rcases List.mem_cons.mp hc with rfl | hc
      · exact dot_not_ws
      · exact not_ws_of_isDigitChar (hFd c hc)
  have htrim := trim_eq_self hws
  have hsplit : splitOn '.' ((w :: W') ++ '.' :: F) = [w :: W', F] := by
    rw [splitOn_append_sep (fun c hc => digit_ne_dot (hWd c hc)),
      splitOn_no_sep (fun c hc => digit_ne_dot (hFd c hc))]
  have hall : (w :: W').all isDigitChar = true := List.all_eq_true.mpr hWd
  have hparse := parse_u64_digits_ok hWd (by simp) h1
  have hFlen' : utf8Len F = F.length := utf8Len_digits hFd
  have hpadD : ∀ c ∈ F ++ List.replicate (8 - F.length) '0',
      isDigitChar c = true := by
    intro c hc
    rcases List.mem_append.mp hc with hc | hc
    · exact hFd c hc
    · rw [List.eq_of_mem_replicate hc]; decide
  have hlen8 : (F ++ List.replicate (8 - F.length) '0').length = 8 := by
    simp
    omega
  have hpadne : F ++ List.replicate (8 - F.length) '0' ≠ [] := by
    intro hnil
    rw [hnil] at hlen8
    simp at hlen8
  have hpadval : digitsVal (F ++ List.replicate (8 - F.length) '0') =
      digitsVal F * 10 ^ (8 - F.length) := digitsVal_append_zeros F _
  have hpadle : digitsVal (F ++ List.replicate (8 - F.length) '0') ≤ U64_MAX := by
    have hlt := digitsVal_lt_pow hpadD
    rw [hlen8] at hlt
    unfold U64_MAX
    omega
  have hparseF := parse_u64_digits_ok hpadD hpadne hpadle
  have hFand : (!F.isEmpty && !F.all isDigitChar) = false := by
    have : F.all isDigitChar = true := List.all_eq_true.mpr hFd
    rw [this]
    simp
  have hwne : ¬ (w = '-') := digit_ne_dash hwd
  have hn2 : ¬ (U64_MAX < digitsVal (w :: W') * ZATOSHI_PER_ZEC) :=
    not_lt.mpr h2
  have hn3 : ¬ (U64_MAX < digitsVal (w :: W') * ZATOSHI_PER_ZEC +
      digitsVal F * 10 ^ (8 - F.length)) := not_lt.mpr h3
  have hnlen : ¬ (8 < F.length) := not_lt.mpr hFlen
  have htrim' : trim (w :: (W' ++ '.' :: F)) = w :: (W' ++ '.' :: F) := by
    simpa [List.cons_append] using htrim
  have hsplit' : splitOn '.' (w :: (W' ++ '.' :: F)) = [w :: W', F] := by
    simpa [List.cons_append] using hsplit
  unfold from_zec_str
  simp only [List.cons_append, htrim', hsplit', List.isEmpty_cons,
    Bool.false_eq_true, if_false, List.head?_cons, Option.some.injEq, hwne,
    List.length_cons, List.length_nil, hall, Bool.not_true, hparse, hFlen',
    hnlen, hFand, List.head?_nil, hparseF, hpadval, hn2, hn3]
  rw [if_neg (by omega)]

/-! ### C2: parse/format round-trip over the full monetary range -/

theorem to_zec_string_whole {v : Nat} (h : v % ZATOSHI_PER_ZEC = 0) :
    to_zec_string v = natDigits (v / ZATOSHI_PER_ZEC) := by
  unfold to_zec_string
  rw [if_pos h]

theorem to_zec_string_frac {v : Nat} (h : v % ZATOSHI_PER_ZEC ≠ 0) :
    to_zec_string v = natDigits (v / ZATOSHI_PER_ZEC) ++
      '.' :: stripTrailingZeros (zeroPadLeft 8 (natDigits (v % ZATOSHI_PER_ZEC))) := by
  unfold to_zec_string
  rw [if_neg h]

theorem Zatoshi.new_ok {v : Nat} (hmin : ZATOSHI_MIN ≤ v)
    (hmax : v ≤ ZATOSHI_MAX) : Zatoshi.new v = .ok v := by
  unfold Zatoshi.new
  rw [if_neg (by omega), if_neg (by omega)]

/-- **C2.** For every monetary value `v` with
`ZATOSHI_MIN ≤ v ≤ ZATOSHI_MAX` (1 ≤ v ≤ 2_100_000_000_000_000 zatoshi),
formatting `v` with `to_zec_string` and re-parsing the result with
`from_zec_str` succeeds and returns exactly `v`. -/
theorem money_format_parse_roundtrip (v : Nat) (hmin : ZATOSHI_MIN ≤ v)
    (hmax : v ≤ ZATOSHI_MAX) :
    from_zec_str (to_zec_string v) = .ok v := by
  have hPpos : 0 < ZATOSHI_PER_ZEC := by norm_num [ZATOSHI_PER_ZEC]
  have hdm := Nat.div_add_mod v ZATOSHI_PER_ZEC
  have hdm' : v / ZATOSHI_PER_ZEC * ZATOSHI_PER_ZEC + v % ZATOSHI_PER_ZEC = v := by
    rw [Nat.mul_comm]
    exact hdm
  have hdv : digitsVal (natDigits (v / ZATOSHI_PER_ZEC)) = v / ZATOSHI_PER_ZEC :=
    digitsVal_natDigits _
  have hdiv_le : v / ZATOSHI_PER_ZEC * ZATOSHI_PER_ZEC ≤ v :=
    Nat.div_mul_le_self v ZATOSHI_PER_ZEC
  have hmaxU : ZATOSHI_MAX ≤ U64_MAX := by
    unfold ZATOSHI_MAX U64_MAX
    omega
  have h1 : digitsVal (natDigits (v / ZATOSHI_PER_ZEC)) ≤ U64_MAX := by
    rw [hdv]
    have := Nat.div_le_self v ZATOSHI_PER_ZEC
    omega
  have h2 : digitsVal (natDigits (v / ZATOSHI_PER_ZEC)) * ZATOSHI_PER_ZEC ≤
      U64_MAX := by
    rw [hdv]
    omega
  by_cases h0 : v % ZATOSHI_PER_ZEC = 0
  · rw [to_zec_string_whole h0,
      from_zec_str_digits _ (natDigits_all_digits _) (natDigits_ne_nil _) h1 h2,
      hdv]
    have hv : v / ZATOSHI_PER_ZEC * ZATOSHI_PER_ZEC = v := by omega
    rw [hv, Zatoshi.new_ok hmin hmax]
  · have hfrac_lt : v % ZATOSHI_PER_ZEC < 10 ^ 8 := by
      have := Nat.mod_lt v hPpos
      have hP : ZATOSHI_PER_ZEC = 10 ^ 8 := by norm_num [ZATOSHI_PER_ZEC]
      omega
    have hnlen : (natDigits (v % ZATOSHI_PER_ZEC)).length ≤ 8 :=
      natDigits_length_le (by norm_num) hfrac_lt
    have hP8len : (zeroPadLeft 8 (natDigits (v % ZATOSHI_PER_ZEC))).length = 8 := by
      unfold zeroPadLeft
      simp
      omega
    have hP8d : ∀ c ∈ zeroPadLeft 8 (natDigits (v % ZATOSHI_PER_ZEC)),
        isDigitChar c = true := by
      intro c hc
      unfold zeroPadLeft at hc
      rcases List.mem_append.mp hc with hc | hc
      · rw [List.eq_of_mem_replicate hc]; decide
      · exact natDigits_all_digits _ c hc
    have hP8val : digitsVal (zeroPadLeft 8 (natDigits (v % ZATOSHI_PER_ZEC))) =
        v % ZATOSHI_PER_ZEC := by
      rw [digitsVal_zeroPad, digitsVal_natDigits]
    obtain ⟨m, hm⟩ := stripTrailing_restore
      (zeroPadLeft 8 (natDigits (v % ZATOSHI_PER_ZEC)))
    set F := stripTrailingZeros (zeroPadLeft 8 (natDigits (v % ZATOSHI_PER_ZEC)))
      with hF
    have hFd : ∀ c ∈ F, isDigitChar c = true := fun c hc =>
      hP8d c (stripTrailing_subset c hc)
    have hFlen_m : F.length + m = 8 := by
      have := congrArg List.length hm
      rw [hP8len] at this
      simp at this
      omega
    have hFlen : F.length ≤ 8 := by omega
    have hmval : m = 8 - F.length := by omega
    have hFval : digitsVal F * 10 ^ (8 - F.length) = v % ZATOSHI_PER_ZEC := by
      rw [← hmval, ← digitsVal_append_zeros, ← hm, hP8val]
    have h3 : digitsVal (natDigits (v / ZATOSHI_PER_ZEC)) * ZATOSHI_PER_ZEC +
        digitsVal F * 10 ^ (8 - F.length) ≤ U64_MAX := by
      rw [hdv, hFval]
      omega
    rw [to_zec_string_frac h0, ← hF,
      from_zec_str_digits_frac _ _ (natDigits_all_digits _)
        (natDigits_ne_nil _) hFd hFlen h1 h2 h3,
      hdv, hFval]
    have hv : v / ZATOSHI_PER_ZEC * ZATOSHI_PER_ZEC + v % ZATOSHI_PER_ZEC = v := by
      omega
    rw [hv, Zatoshi.new_ok hmin hmax]

/-- Witness for C2 at the concrete value 1.5 ZEC = 150000000 zatoshi. -/
theorem money_format_parse_roundtrip_witness :
    ZATOSHI_MIN ≤ 150000000 ∧ 150000000 ≤ ZATOSHI_MAX ∧
      from_zec_str (to_zec_string 150000000) = .ok 150000000 :=
  ⟨by decide, by decide,
    money_format_parse_roundtrip 150000000 (by decide) (by decide)⟩

/-! ### C10: a trailing decimal point is accepted -/

/-- **C10.** For every string `W` of ASCII digits whose value times 10^8
lies in `[ZATOSHI_MIN, ZATOSHI_MAX]`, `from_zec_str` accepts `W`
followed by a single trailing decimal point with no fractional digits
and returns the same value as parsing `W` alone — a trailing-dot input
is not rejected as a format error. -/
theorem trailing_dot_accepted (W : List Char)
    (hWd : ∀ c ∈ W, isDigitChar c = true)
    (hmin : ZATOSHI_MIN ≤ digitsVal W * ZATOSHI_PER_ZEC)
    (hmax : digitsVal W * ZATOSHI_PER_ZEC ≤ ZATOSHI_MAX) :
    from_zec_str (W ++ ['.']) = .ok (digitsVal W * ZATOSHI_PER_ZEC) ∧
      from_zec_str W = .ok (digitsVal W * ZATOSHI_PER_ZEC) := by
  have hne : W ≠ [] := by
    intro hnil
    subst hnil
    revert hmin
    decide
  have hPle : digitsVal W ≤ digitsVal W * ZATOSHI_PER_ZEC := by
    have : 1 ≤ ZATOSHI_PER_ZEC := by unfold ZATOSHI_PER_ZEC; omega
    calc digitsVal W = digitsVal W * 1 := by ring
      _ ≤ digitsVal W * ZATOSHI_PER_ZEC := Nat.mul_le_mul_left _ this
  have hmaxU : ZATOSHI_MAX ≤ U64_MAX := by
    unfold ZATOSHI_MAX U64_MAX
    omega
  have h1 : digitsVal W ≤ U64_MAX := by omega
  have h2 : digitsVal W * ZATOSHI_PER_ZEC ≤ U64_MAX := by omega
  have h3 : digitsVal W * ZATOSHI_PER_ZEC +
      digitsVal ([] : List Char) * 10 ^ (8 - ([] : List Char).length) ≤
        U64_MAX := by
    have : digitsVal ([] : List Char) = 0 := rfl
    simp [this]
    omega
  constructor
  · rw [show W ++ ['.'] = W ++ '.' :: ([] : List Char) from rfl,
      from_zec_str_digits_frac W [] hWd hne (by simp) (by simp) h1 h2 h3]
    have hz : digitsVal ([] : List Char) = 0 := rfl
    rw [hz]
    simp
    exact Zatoshi.new_ok hmin hmax
  · rw [from_zec_str_digits W hWd hne h1 h2]
    exact Zatoshi.new_ok hmin hmax

/-- Witness for C10 at `W = "1"`. -/
theorem trailing_dot_accepted_witness :
    (∀ c ∈ str "1", isDigitChar c = true) ∧
      ZATOSHI_MIN ≤ digitsVal (str "1") * ZATOSHI_PER_ZEC ∧
      digitsVal (str "1") * ZATOSHI_PER_ZEC ≤ ZATOSHI_MAX ∧
      (from_zec_str (str "1" ++ ['.']) =
          .ok (digitsVal (str "1") * ZATOSHI_PER_ZEC) ∧
        from_zec_str (str "1") =
          .ok (digitsVal (str "1") * ZATOSHI_PER_ZEC)) :=
  ⟨by decide, by decide, by decide,
    trailing_dot_accepted (str "1") (by decide) (by decide) (by decide)⟩

/-! ### C4: construction is a pure function of recipients and network -/

/-- **C4.** Two calls of `construct_zip321` on batches with equal
recipient lists and equal networks (even if the stored running totals or
warning lists differ) return completely identical results — in
particular the same id, created_at, URI, payload byte length and content
hash; nothing depends on wall-clock time or random state, which do not
even occur as inputs of the embedded function. -/
theorem construct_zip321_deterministic (sha256 : List Nat → List Nat)
    (uuid_v5 : Nat → List Nat → Nat) (b1 b2 : ValidatedBatch)
    (hr : b1.recipients = b2.recipients) (hn : b1.network = b2.network) :
    construct_zip321 sha256 uuid_v5 b1 = construct_zip321 sha256 uuid_v5 b2 := by
  unfold construct_zip321
  rw [hr, hn]

/-- Witness for C4: two batches with the same recipients and network but
different stored totals and warnings yield identical intents. -/
theorem construct_zip321_deterministic_witness :
    construct_zip321 shaZ uuidZ BATCH_A = construct_zip321 shaZ uuidZ BATCH_B :=
  construct_zip321_deterministic shaZ uuidZ BATCH_A BATCH_B rfl rfl

/-! ### C9: the timestamp is derived from the content hash -/

/-- **C9.** For every accepted batch, the `created_at` of the produced
intent equals the big-endian unsigned integer formed from the first 8
bytes of the SHA-256 digest of the URI bytes, reduced modulo
`SECONDS_UPPER_BOUND` (the number of seconds from the Unix epoch to
9999-12-31T23:59:59Z), interpreted as seconds since the Unix epoch — a
pure function of content. -/
theorem created_at_from_hash (sha256 : List Nat → List Nat)
    (uuid_v5 : Nat → List Nat → Nat) (batch : ValidatedBatch)
    (intent : TransactionIntent)
    (h : construct_zip321 sha256 uuid_v5 batch = .ok intent) :
    intent.created_at =
      bytesToU64BE
        ((sha256 (utf8Encode (build_zip321_uri batch.recipients))).take 8) %
        SECONDS_UPPER_BOUND := by
  unfold construct_zip321 at h
  by_cases hemp : batch.recipients.isEmpty
  · rw [if_pos hemp] at h
    exact absurd h (by simp)
  · rw [if_neg hemp] at h
    cases hs : sum_total batch.recipients with
    | error e =>
      rw [hs] at h
      exact absurd h (by simp)
    | ok total =>
      rw [hs] at h
      have := Except.ok.inj h
      subst this
      rfl

set_option maxRecDepth 40000 in
/-- Witness for C9 on `BATCH_ONE` with the concrete hash stand-ins. -/
theorem created_at_from_hash_witness :
    construct_zip321 shaZ uuidZ BATCH_ONE = .ok INTENT_ONE ∧
      INTENT_ONE.created_at =
        bytesToU64BE
          ((shaZ (utf8Encode (build_zip321_uri BATCH_ONE.recipients))).take 8) %
          SECONDS_UPPER_BOUND :=
  ⟨by decide, created_at_from_hash shaZ uuidZ BATCH_ONE INTENT_ONE (by decide)⟩

/-! ### C1: the built URI is exactly the canonical one -/

theorem joinSep_append (sep : List Char) (A B : List (List Char))
    (hA : A ≠ []) (hB : B ≠ []) :
    joinSep sep (A ++ B) = joinSep sep A ++ sep ++ joinSep sep B := by
  induction A with
  | nil => exact absurd rfl hA
  | cons x A' ih =>
    cases A' with
    | nil =>
      cases B with
      | nil => exact absurd rfl hB
      | cons y B' => simp [joinSep]
    | cons x' A'' =>
      have h := ih (by simp)
      have hL : joinSep sep ((x :: x' :: A'') ++ B) =
          x ++ sep ++ joinSep sep ((x' :: A'') ++ B) := rfl
      have hR : joinSep sep (x :: x' :: A'') =
          x ++ sep ++ joinSep sep (x' :: A'') := rfl
      rw [hL, hR, h]
      simp [List.append_assoc]

theorem joinSep_flatten (sep : List Char) (groups : List (List (List Char)))
    (h : ∀ g ∈ groups, g ≠ []) :
    joinSep sep (groups.map (joinSep sep)) = joinSep sep groups.flatten := by
  induction groups with
  | nil => simp [joinSep]
  | cons g gs ih =>
    cases gs with
    | nil => simp [joinSep]
    | cons g' gs' =>
      have hg : g ≠ [] := h g (by simp)
      have hg' : g' ≠ [] := h g' (by simp)
      have hflat : (g' :: gs').flatten ≠ [] := by
        intro hnil
        rw [List.flatten_cons] at hnil
        exact hg' (List.append_eq_nil.mp hnil).1
      have ihr := ih (fun x hx => h x (by simp [hx]))
      have hL : joinSep sep ((g :: g' :: gs').map (joinSep sep)) =
          joinSep sep g ++ sep ++
            joinSep sep ((g' :: gs').map (joinSep sep)) := rfl
      have hflatten : (g :: g' :: gs').flatten = g ++ (g' :: gs').flatten := rfl
      rw [hL, ihr, hflatten, joinSep_append sep g _ hg hflat]

theorem multiParams_ne_nil (i : Nat) (vr : ValidatedRecipient) :
    multiParams i vr ≠ [] := by
  unfold multiParams
  cases memoFiltered vr.recipient.memo <;> simp

theorem canonicalBlock_eq_joinSep (i : Nat) (vr : ValidatedRecipient) :
    canonicalRecipientBlock i vr = joinSep (str "&") (multiParams i vr) := by
  unfold canonicalRecipientBlock multiParams
  have e1 : (str "&amount" : List Char) = str "&" ++ str "amount" := rfl
  have e2 : (str "&memo" : List Char) = str "&" ++ str "memo" := rfl
  cases memoFiltered vr.recipient.memo with
  | none => simp [joinSep, e1, List.append_assoc]
  | some m => simp [joinSep, e1, e2, List.append_assoc]

/-- **C1.** For every non-empty recipient list, `build_zip321_uri`
produces exactly the canonical URI of the spec: one recipient gives
`zcash:<address>?amount=<decimal-money>` with `&memo=<padded base64>`
appended only for a present non-empty memo; two or more recipients give
`zcash:?` followed by the `address`/`amount`/(optional)`memo` parameters
of each recipient in list order, the first unsuffixed and recipient
`i ≥ 1` suffixed `.i`. -/
theorem build_uri_canonical (recipients : List ValidatedRecipient)
    (h : recipients ≠ []) :
    build_zip321_uri recipients = canonical_zip321_uri recipients := by
  match recipients with
  | [vr] =>
    show build_zip321_uri [vr] = canonical_zip321_uri [vr]
    simp only [build_zip321_uri, canonical_zip321_uri, singleParams]
    have e1 : (str "?amount=" : List Char) = '?' :: str "amount=" := rfl
    have e2 : (str "&memo=" : List Char) = str "&" ++ str "memo=" := rfl
    cases hm : memoFiltered vr.recipient.memo with
    | none =>
      simp [hm, joinSep, e1, List.append_assoc]
    | some m =>
      simp [hm, joinSep, e1, e2, List.append_assoc]
  | r1 :: r2 :: rest =>
    show build_zip321_uri (r1 :: r2 :: rest) =
      canonical_zip321_uri (r1 :: r2 :: rest)
    simp only [build_zip321_uri, canonical_zip321_uri]
    congr 1
    rw [← joinSep_flatten (str "&") _
      (by
        intro g hg
        rw [List.mem_map] at hg
        obtain ⟨p, _, rfl⟩ := hg
        exact multiParams_ne_nil p.1 p.2)]
    rw [List.map_map]
    congr 1
    apply List.map_congr_left
    intro p _
    exact (canonicalBlock_eq_joinSep p.1 p.2).symm

set_option maxRecDepth 40000 in
/-- Witness for C1 at the spec's scenario: one recipient, address
`t1Hsc1LR8yKnbbe3twRp88p6vFfC5t7DLbs`, amount 1.5, memo "hello". -/
theorem build_uri_canonical_witness :
    ([VR_SAMPLE] ≠ ([] : List ValidatedRecipient)) ∧
      build_zip321_uri [VR_SAMPLE] = canonical_zip321_uri [VR_SAMPLE] ∧
      build_zip321_uri [VR_SAMPLE] =
        str "zcash:t1Hsc1LR8yKnbbe3twRp88p6vFfC5t7DLbs?amount=1.5&memo=aGVsbG8=" :=
  ⟨by decide, build_uri_canonical [VR_SAMPLE] (by decide), by decide⟩

/-! ### C5: segmentation is complete and budget-respecting -/

theorem construct_zip321_fields (sha256 : List Nat → List Nat)
    (uuid_v5 : Nat → List Nat → Nat) (batch : ValidatedBatch)
    (intent : TransactionIntent)
    (h : construct_zip321 sha256 uuid_v5 batch = .ok intent) :
    intent.payload_bytes = utf8Len (build_zip321_uri batch.recipients) ∧
      intent.recipients.length = batch.recipients.length := by
  unfold construct_zip321 at h
  by_cases hemp : batch.recipients.isEmpty
  · rw [if_pos hemp] at h
    exact absurd h (by simp)
  · rw [if_neg hemp] at h
    cases hs : sum_total batch.recipients with
    | error e =>
      rw [hs] at h
      exact absurd h (by simp)
    | ok t =>
      rw [hs] at h
      have := Except.ok.inj h
      subst this
      exact ⟨rfl, by simp⟩

theorem construct_segment_fields (sha256 : List Nat → List Nat)
    (uuid_v5 : Nat → List Nat → Nat) (rs : List ValidatedRecipient)
    (net : Network) (intent : TransactionIntent)
    (h : construct_segment sha256 uuid_v5 rs net = .ok intent) :
    intent.payload_bytes = utf8Len (build_zip321_uri rs) ∧
      intent.recipients.length = rs.length := by
  unfold construct_segment at h
  cases hs : sum_total rs with
  | error e =>
    rw [hs] at h
    exact absurd h (by simp)
  | ok t =>
    rw [hs] at h
    exact construct_zip321_fields sha256 uuid_v5 _ intent h

theorem segGo_spec (sha256 : List Nat → List Nat)
    (uuid_v5 : Nat → List Nat → Nat) (net : Network) (budget : Nat) :
    ∀ (rest current : List ValidatedRecipient)
      (segments : List TransactionIntent),
    (current ≠ [] → utf8Len (build_zip321_uri current) ≤ budget) →
    (∀ s ∈ segments, s.payload_bytes ≤ budget) →
    ∀ out, segGo sha256 uuid_v5 net budget current segments rest = .ok out →
    ((out.map (fun s => s.recipients.length)).sum =
      (segments.map (fun s => s.recipients.length)).sum +
        current.length + rest.length) ∧
    (∀ s ∈ out, s.payload_bytes ≤ budget) := by
  intro rest
  induction rest with
  | nil =>
    intro current segments hcur hsegs out hout
    simp only [segGo] at hout
    by_cases hce : current.isEmpty
    · rw [if_pos hce] at hout
      have hseg := Except.ok.inj hout
      subst hseg
      have hnil : current = [] := by simpa [List.isEmpty_iff] using hce
      subst hnil
      exact ⟨by simp, hsegs⟩
    · rw [if_neg hce] at hout
      cases hc : construct_segment sha256 uuid_v5 current net with
      | error e =>
        rw [hc] at hout
        exact absurd hout (by simp)
      | ok intent =>
        rw [hc] at hout
        have hseg := Except.ok.inj hout
        subst hseg
        have hf := construct_segment_fields sha256 uuid_v5 current net intent hc
        constructor
        · simp [hf.2]
        · intro s hs
          rcases List.mem_append.mp hs with hs | hs
          · exact hsegs s hs
          · rw [List.mem_singleton] at hs
            subst hs
            rw [hf.1]
            exact hcur (by simpa [List.isEmpty_iff] using hce)
  | cons r rest ih =>
    intro current segments hcur hsegs out hout
    simp only [segGo] at hout
    by_cases hfit : utf8Len (build_zip321_uri (current ++ [r])) ≤ budget
    · rw [if_pos hfit] at hout
      have hrec := ih (current ++ [r]) segments (fun _ => hfit) hsegs out hout
      constructor
      · rw [hrec.1]
        simp
        omega
      · exact hrec.2
    · rw [if_neg hfit] at hout
      by_cases hce : current.isEmpty
      · rw [if_pos hce] at hout
        exact absurd hout (by simp)
      · rw [if_neg hce] at hout
        cases hc : construct_segment sha256 uuid_v5 current net with
        | error e =>
          rw [hc] at hout
          exact absurd hout (by simp)
        | ok intent =>
          rw [hc] at hout
          replace hout :
              (if budget < utf8Len (build_zip321_uri [r]) then
                Except.error (oversizedRowIssue r.row_number budget)
              else
                segGo sha256 uuid_v5 net budget [r] (segments ++ [intent])
                  rest) = Except.ok out := hout
          by_cases hov : budget < utf8Len (build_zip321_uri [r])
          · rw [if_pos hov] at hout
            exact absurd hout (by simp)
          · rw [if_neg hov] at hout
            have hf := construct_segment_fields sha256 uuid_v5 current net
              intent hc
            have hs1 : ∀ s ∈ segments ++ [intent], s.payload_bytes ≤ budget := by
              intro s hs
              rcases List.mem_append.mp hs with hs | hs
              · exact hsegs s hs
              · rw [List.mem_singleton] at hs
                subst hs
                rw [hf.1]
                exact hcur (by simpa [List.isEmpty_iff] using hce)
            have hrec := ih [r] (segments ++ [intent])
              (fun _ => not_lt.mp hov) hs1 out hout
            constructor
            · rw [hrec.1]
              simp [hf.2]
              omega
            · exact hrec.2

/-- **C5.** Whenever `segment_batch` succeeds on a batch and a positive
byte budget `k`, the recipient counts of the produced segments sum to
the batch's recipient count exactly, and every segment's encoded URI
byte length is at most `k`. -/
theorem segment_batch_complete (sha256 : List Nat → List Nat)
    (uuid_v5 : Nat → List Nat → Nat) (batch : ValidatedBatch) (k : Nat)
    (sb : SegmentedBatch) (hk : 0 < k)
    (h : segment_batch sha256 uuid_v5 batch k = .ok sb) :
    ((sb.segments.map (fun s => s.recipients.length)).sum =
      batch.recipients.length) ∧
    (∀ s ∈ sb.segments, s.payload_bytes ≤ k) := by
  unfold segment_batch at h
  rw [if_neg (by omega)] at h
  by_cases hemp : batch.recipients.isEmpty
  · rw [if_pos hemp] at h
    exact absurd h (by simp)
  · rw [if_neg hemp] at h
    cases hgo : segGo sha256 uuid_v5 batch.network k [] [] batch.recipients with
    | error e =>
      rw [hgo] at h
      exact absurd h (by simp)
    | ok segs =>
      rw [hgo] at h
      have hsb := Except.ok.inj h
      subst hsb
      have hspec := segGo_spec sha256 uuid_v5 batch.network k
        batch.recipients [] [] (fun hne => absurd rfl hne) (by simp) segs hgo
      exact ⟨by simpa using hspec.1, hspec.2⟩

set_option maxRecDepth 40000 in
/-- Witness for C5 on the one-recipient batch with budget 10000. -/
theorem segment_batch_complete_witness :
    0 < 10000 ∧
      ((SB_ONE.segments.map (fun s => s.recipients.length)).sum =
          BATCH_ONE.recipients.length ∧
        ∀ s ∈ SB_ONE.segments, s.payload_bytes ≤ 10000) :=
  ⟨by decide,
    segment_batch_complete shaZ uuidZ BATCH_ONE 10000 SB_ONE (by decide)
      (by decide)⟩

/-! ### Lemmas about the `validate_batch` row loop -/

theorem processRow_issues (d : AddressDecoder) (net : Network)
    (st : LoopState) (row : RawRow) :
    ∃ extra, (processRow d net st row).issues =
      st.issues ++ rowIssues d net row ++ extra ∧
      ∀ i ∈ extra, i.code = TaxonomyCode.Validation1013 := by
  unfold processRow rowIssues
  cases ha : validate_address_row d row net with
  | error i =>
    cases validate_amount_row row <;> cases validate_memo_row row <;>
      exact ⟨[], by simp [errList], by simp⟩
  | ok ty =>
    cases ham : validate_amount_row row with
    | error j =>
      cases validate_memo_row row <;>
        exact ⟨[], by simp [errList], by simp⟩
    | ok a =>
      cases hm : validate_memo_row row with
      | error k => exact ⟨[], by simp [errList], by simp⟩
      | ok m =>
        cases ht : st.total with
        | none => exact ⟨[], by simp [errList, ht], by simp⟩
        | some current =>
          cases hca : checked_add current a with
          | ok next => exact ⟨[], by simp [errList, ht, hca], by simp⟩
          | error e =>
            exact ⟨[overflowIssue row.row_number],
              by simp [errList, ht, hca], by
                intro i hi
                rw [List.mem_singleton] at hi
                subst hi
                rfl⟩

theorem runRows_append (d : AddressDecoder) (net : Network)
    (xs ys : List RawRow) : ∀ st,
    runRows d net st (xs ++ ys) = runRows d net (runRows d net st xs) ys := by
  induction xs with
  | nil => intro st; rfl
  | cons x xs ih => intro st; exact ih (processRow d net st x)

theorem runRows_issues_extend (d : AddressDecoder) (net : Network) :
    ∀ (rows : List RawRow) (st : LoopState),
    ∃ ex, (runRows d net st rows).issues = st.issues ++ ex := by
  intro rows
  induction rows with
  | nil => intro st; exact ⟨[], by simp [runRows]⟩
  | cons row rest ih =>
    intro st
    obtain ⟨extra, hpr, _⟩ := processRow_issues d net st row
    obtain ⟨ex, hex⟩ := ih (processRow d net st row)
    exact ⟨(rowIssues d net row ++ extra) ++ ex, by
      show (runRows d net (processRow d net st row) rest).issues = _
      rw [hex, hpr]
      simp [List.append_assoc]⟩

theorem runRows_mem_rowIssues (d : AddressDecoder) (net : Network) :
    ∀ (rows : List RawRow) (st : LoopState) (r : RawRow), r ∈ rows →
    ∀ i ∈ rowIssues d net r, i ∈ (runRows d net st rows).issues := by
  intro rows
  induction rows with
  | nil => intro st r hr; exact absurd hr (by simp)
  | cons row rest ih =>
    intro st r hr i hi
    rcases List.mem_cons.mp hr with rfl | hr
    · obtain ⟨extra, hpr, _⟩ := processRow_issues d net st r
      obtain ⟨ex, hex⟩ := runRows_issues_extend d net rest
        (processRow d net st r)
      show i ∈ (runRows d net (processRow d net st r) rest).issues
      rw [hex, hpr]
      simp only [List.append_assoc, List.mem_append]
      right; left; exact hi
    · exact ih (processRow d net st row) r hr i hi

theorem validate_address_row_code {d : AddressDecoder} {row : RawRow}
    {net : Network} {i : BatchValidationIssue}
    (h : validate_address_row d row net = .error i) :
    i.code = .Validation1001 ∨ i.code = .Validation1005 := by
  simp only [validate_address_row] at h
  split at h
  · have := Except.error.inj h
    subst this
    left; rfl
  · split at h
    · have := Except.error.inj h
      subst this
      left; rfl
    · have := Except.error.inj h
      subst this
      left; rfl
    · split at h
      · have := Except.error.inj h
        subst this
        right; rfl
      · split at h <;> (try split at h) <;>
          first
            | (have hinj := Except.error.inj h; subst hinj; left; rfl)
            | exact absurd h (by simp)

theorem validate_amount_row_code {row : RawRow} {i : BatchValidationIssue}
    (h : validate_amount_row row = .error i) :
    i.code = .Validation1002 := by
  simp only [validate_amount_row] at h
  split at h
  · exact absurd h (by simp)
  · have := Except.error.inj h
    subst this
    rfl

theorem validate_memo_row_code {row : RawRow} {i : BatchValidationIssue}
    (h : validate_memo_row row = .error i) :
    i.code = .Validation1004 := by
  unfold validate_memo_row at h
  split at h
  · exact absurd h (by simp)
  · split at h
    · have := Except.error.inj h
      subst this
      rfl
    · exact absurd h (by simp)

theorem rowIssues_code_ne (d : AddressDecoder) (net : Network) (row : RawRow) :
    ∀ i ∈ rowIssues d net row, i.code ≠ .Validation1011 := by
  intro i hi
  unfold rowIssues at hi
  rcases List.mem_append.mp hi with hi | hi
  · rcases List.mem_append.mp hi with hi | hi
    · cases ha : validate_address_row d row net with
      | error j =>
        rw [ha] at hi
        rw [show errList (Except.error j :
            Except BatchValidationIssue RecipientAddressType) = [j] from rfl,
          List.mem_singleton] at hi
        subst hi
        rcases validate_address_row_code ha with h | h <;> rw [h] <;> decide
      | ok ty =>
        rw [ha] at hi
        exact absurd hi (by simp [errList])
    · cases ha : validate_amount_row row with
      | error j =>
        rw [ha] at hi
        rw [show errList (Except.error j :
            Except BatchValidationIssue Nat) = [j] from rfl,
          List.mem_singleton] at hi
        subst hi
        rw [validate_amount_row_code ha]
        decide
      | ok a =>
        rw [ha] at hi
        exact absurd hi (by simp [errList])
  · cases ha : validate_memo_row row with
    | error j =>
      rw [ha] at hi
      rw [show errList (Except.error j :
          Except BatchValidationIssue (Option (List Char))) = [j] from rfl,
        List.mem_singleton] at hi
      subst hi
      rw [validate_memo_row_code ha]
      decide
    | ok m =>
      rw [ha] at hi
      exact absurd hi (by simp [errList])

theorem runRows_codes (d : AddressDecoder) (net : Network) :
    ∀ (rows : List RawRow) (st : LoopState) (i : BatchValidationIssue),
    i ∈ (runRows d net st rows).issues →
    i ∈ st.issues ∨ i.code ≠ .Validation1011 := by
  intro rows
  induction rows with
  | nil => intro st i hi; exact Or.inl hi
  | cons row rest ih =>
    intro st i hi
    rcases ih (processRow d net st row) i hi with hi' | hne
    · obtain ⟨extra, hpr, hextra⟩ := processRow_issues d net st row
      rw [hpr] at hi'
      rcases List.mem_append.mp hi' with hi'' | hex
      · rcases List.mem_append.mp hi'' with hst | hrow
        · exact Or.inl hst
        · exact Or.inr (rowIssues_code_ne d net row i hrow)
      · right
        rw [hextra i hex]
        decide
    · exact Or.inr hne

/-! ### C3: all issues of all offending rows are collected -/

/-- **C3.** For every decoder behaviour, row list and configuration: if
any row produces at least one validation issue then `validate_batch`
returns an error — no `ValidatedBatch` and no partial recipient list —
and the error's issue collection contains every issue of every
offending row; validation stops neither at the first invalid row nor at
the first invalid column. -/
theorem validate_batch_collects_all (d : AddressDecoder)
    (rows : List RawRow) (config : BatchConfig)
    (h : ∃ r ∈ rows, rowIssues d config.network r ≠ []) :
    ∃ issues, validate_batch d rows config = .error issues ∧
      ∀ r ∈ rows, ∀ i ∈ rowIssues d config.network r, i ∈ issues := by
  obtain ⟨r0, hr0, hne0⟩ := h
  have hmem : ∀ r ∈ rows, ∀ i ∈ rowIssues d config.network r,
      i ∈ (runRows d config.network (initState rows config) rows).issues :=
    fun r hr i hi =>
      runRows_mem_rowIssues d config.network rows (initState rows config)
        r hr i hi
  have hfin_ne :
      (runRows d config.network (initState rows config) rows).issues ≠ [] := by
    obtain ⟨i0, hi0⟩ : ∃ i, i ∈ rowIssues d config.network r0 := by
      cases hh : rowIssues d config.network r0 with
      | nil => exact absurd hh hne0
      | cons a l => exact ⟨a, by simp [hh]⟩
    exact List.ne_nil_of_mem (hmem r0 hr0 i0 hi0)
  refine ⟨(runRows d config.network (initState rows config) rows).issues,
    ?_, hmem⟩
  unfold validate_batch
  rw [if_neg (by simpa [List.isEmpty_iff] using hfin_ne)]

/-- Witness for C3: a batch with one empty-address row is rejected with
that row's issue collected. -/
theorem validate_batch_collects_all_witness :
    (∃ r ∈ [ROW_EMPTY_ADDR], rowIssues decodeAcceptT CFG_500.network r ≠ []) ∧
      (∃ issues,
        validate_batch decodeAcceptT [ROW_EMPTY_ADDR] CFG_500 =
            .error issues ∧
          ∀ r ∈ [ROW_EMPTY_ADDR],
            ∀ i ∈ rowIssues decodeAcceptT CFG_500.network r, i ∈ issues) :=
  ⟨by decide,
    validate_batch_collects_all decodeAcceptT [ROW_EMPTY_ADDR] CFG_500
      (by decide)⟩

/-! ### C7: the effective recipient cap -/

/-- The claim "the effective cap equals `min(configured, 500)`" fails
when the configured `max_recipients` is 0: the code then uses 500, so a
single-row batch is not rejected with 1011 even though it exceeds
`min(0, 500) = 0`.  Concretely, one (invalid-address) row under a
zero-cap configuration yields only the 1001 issue, with no 1011. -/
theorem batch_cap_counterexample :
    min CFG_0.max_recipients 500 < ([ROW_EMPTY_ADDR] : List RawRow).length ∧
      (match validate_batch decodeReject [ROW_EMPTY_ADDR] CFG_0 with
        | .error issues => issues.all (fun i => i.code ≠ .Validation1011)
        | .ok _ => false) = true := by
  constructor
  · decide
  · decide

/-- **C7 (amended).** Whenever the configured `max_recipients` is
positive, the effective recipient cap of `validate_batch` equals
`min(configured, 500)` — 500 is a hard ceiling — and the batch is
rejected with a taxonomy-1011 issue exactly when the row count exceeds
that cap.  (When the configured value is 0, the code instead applies
the hard ceiling 500 itself.) -/
theorem batch_cap_min_500 (d : AddressDecoder) (rows : List RawRow)
    (config : BatchConfig) (hpos : 0 < config.max_recipients) :
    batchLimit config = min config.max_recipients 500 ∧
      ((∃ issues, validate_batch d rows config = .error issues ∧
          ∃ i ∈ issues, i.code = .Validation1011) ↔
        min config.max_recipients 500 < rows.length) := by
  have hbl : batchLimit config = min config.max_recipients 500 := by
    unfold batchLimit
    rw [if_neg (by omega)]
  refine ⟨hbl, ?_, ?_⟩
  · rintro ⟨issues, hvb, i, hi, hcode⟩
    unfold validate_batch at hvb
    by_cases hemp :
        (runRows d config.network (initState rows config) rows).issues.isEmpty
    · rw [if_pos hemp] at hvb
      cases htot :
          (runRows d config.network (initState rows config) rows).total with
      | none =>
        rw [htot] at hvb
        have := Except.error.inj hvb
        subst this
        rw [List.mem_singleton] at hi
        subst hi
        exact absurd hcode (by decide)
      | some t =>
        rw [htot] at hvb
        exact absurd hvb (by simp)
    · rw [if_neg hemp] at hvb
      have hiss := Except.error.inj hvb
      subst hiss
      rcases runRows_codes d config.network rows (initState rows config) i hi
        with hinit | hne
      · unfold initState at hinit
        simp only at hinit
        rcases List.mem_append.mp hinit with hl | hr
        · by_cases hre : rows.isEmpty
          · rw [if_pos hre] at hl
            rw [List.mem_singleton] at hl
            subst hl
            exact absurd hcode (by decide)
          · rw [if_neg hre] at hl
            exact absurd hl (by simp)
        · by_cases hcond : batchLimit config < rows.length
          · rw [hbl] at hcond
            exact hcond
          · rw [if_neg hcond] at hr
            exact absurd hr (by simp)
      · exact absurd hcode hne
  · intro hlt
    have hcond : batchLimit config < rows.length := by rw [hbl]; exact hlt
    have hinit : limitIssue rows.length (batchLimit config) ∈
        (initState rows config).issues := by
      unfold initState
      simp only
      rw [if_pos hcond]
      exact List.mem_append_right _ (by simp)
    obtain ⟨ex, hex⟩ :=
      runRows_issues_extend d config.network rows (initState rows config)
    have hmem : limitIssue rows.length (batchLimit config) ∈
        (runRows d config.network (initState rows config) rows).issues := by
      rw [hex]
      exact List.mem_append_left _ hinit
    have hfin_ne :
        (runRows d config.network (initState rows config) rows).issues ≠ [] :=
      List.ne_nil_of_mem hmem
    refine ⟨(runRows d config.network (initState rows config) rows).issues,
      ?_, limitIssue rows.length (batchLimit config), hmem, rfl⟩
    unfold validate_batch
    rw [if_neg (by simpa [List.isEmpty_iff] using hfin_ne)]

/-- Witness for the amended C7: three rows under a configured cap of 2
are rejected with a 1011 issue. -/
theorem batch_cap_min_500_witness :
    batchLimit CFG_2 = min CFG_2.max_recipients 500 ∧
      ((∃ issues,
          validate_batch decodeReject [rowOkAt 1, rowOkAt 2, rowOkAt 3]
              CFG_2 = .error issues ∧
            ∃ i ∈ issues, i.code = .Validation1011) ↔
        min CFG_2.max_recipients 500 <
          ([rowOkAt 1, rowOkAt 2, rowOkAt 3] : List RawRow).length) :=
  batch_cap_min_500 decodeReject [rowOkAt 1, rowOkAt 2, rowOkAt 3] CFG_2
    (by decide)

/-! ### C8: the batch total is an overflow-checked sum -/

theorem RowOk.dest {d : AddressDecoder} {net : Network} {row : RawRow}
    (h : RowOk d net row) :
    ∃ ty a m, validate_address_row d row net = .ok ty ∧
      validate_amount_row row = .ok a ∧ validate_memo_row row = .ok m ∧
      rowAmountD row = a := by
  obtain ⟨h1, h2, h3⟩ := h
  cases ha : validate_address_row d row net with
  | error i => rw [ha] at h1; exact absurd h1 (by simp [Except.isOk, Except.toBool])
  | ok ty =>
    cases ham : validate_amount_row row with
    | error i => rw [ham] at h2; exact absurd h2 (by simp [Except.isOk, Except.toBool])
    | ok a =>
      cases hm : validate_memo_row row with
      | error i => rw [hm] at h3; exact absurd h3 (by simp [Except.isOk, Except.toBool])
      | ok m =>
        exact ⟨ty, a, m, rfl, rfl, rfl, by unfold rowAmountD; rw [ham]⟩

theorem processRow_ok_none {d : AddressDecoder} {net : Network}
    {st : LoopState} {row : RawRow} {ty : RecipientAddressType} {a : Nat}
    {m : Option (List Char)}
    (ha : validate_address_row d row net = .ok ty)
    (ham : validate_amount_row row = .ok a)
    (hm : validate_memo_row row = .ok m)
    (ht : st.total = none) :
    (processRow d net st row).issues = st.issues ∧
      (processRow d net st row).total = some a ∧
      (processRow d net st row).validated.map (fun v => v.recipient.amount) =
        st.validated.map (fun v => v.recipient.amount) ++ [a] := by
  refine ⟨?_, ?_, ?_⟩ <;> simp [processRow, ha, ham, hm, ht, errList]

theorem processRow_ok_add {d : AddressDecoder} {net : Network}
    {st : LoopState} {row : RawRow} {ty : RecipientAddressType}
    {a current next : Nat} {m : Option (List Char)}
    (ha : validate_address_row d row net = .ok ty)
    (ham : validate_amount_row row = .ok a)
    (hm : validate_memo_row row = .ok m)
    (ht : st.total = some current)
    (hca : checked_add current a = .ok next) :
    (processRow d net st row).issues = st.issues ∧
      (processRow d net st row).total = some next ∧
      (processRow d net st row).validated.map (fun v => v.recipient.amount) =
        st.validated.map (fun v => v.recipient.amount) ++ [a] := by
  refine ⟨?_, ?_, ?_⟩ <;> simp [processRow, ha, ham, hm, ht, hca, errList]

theorem processRow_ok_overflow {d : AddressDecoder} {net : Network}
    {st : LoopState} {row : RawRow} {ty : RecipientAddressType}
    {a current : Nat} {m : Option (List Char)} {ae : AmountError}
    (ha : validate_address_row d row net = .ok ty)
    (ham : validate_amount_row row = .ok a)
    (hm : validate_memo_row row = .ok m)
    (ht : st.total = some current)
    (hca : checked_add current a = .error ae) :
    (processRow d net st row).issues =
        st.issues ++ [overflowIssue row.row_number] ∧
      (processRow d net st row).total = some current := by
  refine ⟨?_, ?_⟩ <;> simp [processRow, ha, ham, hm, ht, hca, errList]

theorem runRows_valid (d : AddressDecoder) (net : Network) :
    ∀ (rows : List RawRow) (st : LoopState) (s : Nat),
    (∀ r ∈ rows, RowOk d net r) →
    sum_total_go st.total (rows.map rowAmountD) = .ok s →
    (runRows d net st rows).total = some s ∧
      (runRows d net st rows).issues = st.issues := by
  intro rows
  induction rows with
  | nil =>
    intro st s _ hsum
    cases ht : st.total with
    | none =>
      rw [ht] at hsum
      exact absurd hsum (by simp [sum_total_go])
    | some t =>
      rw [ht] at hsum
      have : t = s := by simpa [sum_total_go] using hsum
      subst this
      exact ⟨ht, rfl⟩
  | cons row rest ih =>
    intro st s hok hsum
    obtain ⟨ty, a, m, ha, ham, hm, hamt⟩ := RowOk.dest (hok row (by simp))
    have hok' : ∀ r ∈ rest, RowOk d net r := fun r hr => hok r (by simp [hr])
    rw [List.map_cons, hamt] at hsum
    cases ht : st.total with
    | none =>
      rw [ht] at hsum
      have hsum' : sum_total_go (some a) (rest.map rowAmountD) = .ok s := by
        simpa [sum_total_go] using hsum
      obtain ⟨h1, h2, _⟩ := processRow_ok_none ha ham hm ht
      have hrec := ih (processRow d net st row) s hok' (by rw [h2]; exact hsum')
      refine ⟨?_, ?_⟩
      · show (runRows d net (processRow d net st row) rest).total = some s
        exact hrec.1
      · show (runRows d net (processRow d net st row) rest).issues = st.issues
        rw [hrec.2, h1]
    | some current =>
      rw [ht] at hsum
      cases hca : checked_add current a with
      | error ae =>
        rw [show sum_total_go (some current) (a :: rest.map rowAmountD) =
            .error () from by simp [sum_total_go, hca]] at hsum
        exact absurd hsum (by simp)
      | ok next =>
        have hsum' : sum_total_go (some next) (rest.map rowAmountD) = .ok s := by
          rw [show sum_total_go (some current) (a :: rest.map rowAmountD) =
            sum_total_go (some next) (rest.map rowAmountD) from by
              simp [sum_total_go, hca]] at hsum
          exact hsum
        obtain ⟨h1, h2, _⟩ := processRow_ok_add ha ham hm ht hca
        have hrec := ih (processRow d net st row) s hok' (by rw [h2]; exact hsum')
        refine ⟨?_, ?_⟩
        · show (runRows d net (processRow d net st row) rest).total = some s
          exact hrec.1
        · show (runRows d net (processRow d net st row) rest).issues = st.issues
          rw [hrec.2, h1]

theorem runRows_no_issues (d : AddressDecoder) (net : Network) :
    ∀ (rows : List RawRow) (st : LoopState),
    (runRows d net st rows).issues = [] →
    ((runRows d net st rows).validated.map (fun v => v.recipient.amount) =
      st.validated.map (fun v => v.recipient.amount) ++
        rows.map rowAmountD) ∧
    (sum_total_go st.total (rows.map rowAmountD) =
      match (runRows d net st rows).total with
      | some t => .ok t
      | none => .error ()) := by
  intro rows
  induction rows with
  | nil =>
    intro st _
    refine ⟨by simp [runRows], ?_⟩
    show sum_total_go st.total [] =
      (match st.total with
       | some t => Except.ok t
       | none => Except.error ())
    cases st.total <;> simp [sum_total_go]
  | cons row rest ih =>
    intro st hfin
    have hfin' : (runRows d net (processRow d net st row) rest).issues = [] :=
      hfin
    have hpr0 : (processRow d net st row).issues = [] := by
      obtain ⟨ex, hex⟩ :=
        runRows_issues_extend d net rest (processRow d net st row)
      rw [hfin'] at hex
      exact (List.append_eq_nil.mp hex.symm).1
    obtain ⟨extra, hpr, _⟩ := processRow_issues d net st row
    rw [hpr0] at hpr
    have hst0 : st.issues = [] := by
      have := (List.append_eq_nil.mp hpr.symm).1
      exact (List.append_eq_nil.mp this).1
    have hrowI : rowIssues d net row = [] := by
      have := (List.append_eq_nil.mp hpr.symm).1
      exact (List.append_eq_nil.mp this).2
    have hextra0 : extra = [] := (List.append_eq_nil.mp hpr.symm).2
    have hok : RowOk d net row := by
      unfold rowIssues at hrowI
      refine ⟨?_, ?_, ?_⟩
      · cases hh : validate_address_row d row net with
        | error i => rw [hh] at hrowI; simp [errList] at hrowI
        | ok _ => simp [Except.isOk, Except.toBool]
      · cases hh : validate_amount_row row with
        | error i => rw [hh] at hrowI; simp [errList] at hrowI
        | ok _ => simp [Except.isOk, Except.toBool]
      · cases hh : validate_memo_row row with
        | error i => rw [hh] at hrowI; simp [errList] at hrowI
        | ok _ => simp [Except.isOk, Except.toBool]
    obtain ⟨ty, a, m, ha, ham, hm, hamt⟩ := RowOk.dest hok
    have hrec := ih (processRow d net st row) hfin'
    rw [List.map_cons, hamt]
    cases ht : st.total with
    | none =>
      obtain ⟨h1, h2, h3⟩ := processRow_ok_none ha ham hm ht
      refine ⟨?_, ?_⟩
      · show (runRows d net (processRow d net st row) rest).validated.map
            (fun v => v.recipient.amount) = _
        rw [hrec.1, h3]
        simp
      · show _ = (match (runRows d net (processRow d net st row) rest).total
            with | some t => Except.ok t | none => Except.error ())
        rw [show sum_total_go none (a :: rest.map rowAmountD) =
            sum_total_go (some a) (rest.map rowAmountD) from by
              simp [sum_total_go]]
        rw [← h2]
        exact hrec.2
    | some current =>
      cases hca : checked_add current a with
      | error ae =>
        obtain ⟨h1, _⟩ := processRow_ok_overflow ha ham hm ht hca
        rw [hst0] at h1
        rw [h1] at hpr0
        exact absurd hpr0 (by simp)
      | ok next =>
        obtain ⟨h1, h2, h3⟩ := processRow_ok_add ha ham hm ht hca
        refine ⟨?_, ?_⟩
        · show (runRows d net (processRow d net st row) rest).validated.map
              (fun v => v.recipient.amount) = _
          rw [hrec.1, h3]
          simp
        · show _ = (match (runRows d net (processRow d net st row) rest).total
              with | some t => Except.ok t | none => Except.error ())
          rw [show sum_total_go (some current) (a :: rest.map rowAmountD) =
              sum_total_go (some next) (rest.map rowAmountD) from by
                simp [sum_total_go, hca]]
          rw [← h2]
          exact hrec.2

/-- **C8.** First part: for every accepted batch, the stored total
equals the overflow-checked sum (the encoder's own `sum_total`) over the
amounts of the returned recipients.  Second part: when every row up to
and including row `r` is individually valid, the running sum of the
earlier rows is `s`, and adding `r`'s amount overflows the checked
addition, `validate_batch` fails and its issue collection contains the
taxonomy-1013 issue attributed to `r`'s row number and the `amount`
column — the overflow is never silently truncated. -/
theorem batch_total_checked :
    (∀ (d : AddressDecoder) (rows : List RawRow) (config : BatchConfig)
        (b : ValidatedBatch),
      validate_batch d rows config = .ok b →
      sum_total b.recipients = .ok b.total) ∧
    (∀ (d : AddressDecoder) (config : BatchConfig) (pre : List RawRow)
        (r : RawRow) (post : List RawRow) (s : Nat),
      (∀ row ∈ pre, RowOk d config.network row) →
      RowOk d config.network r →
      sum_total_go none (pre.map rowAmountD) = .ok s →
      (checked_add s (rowAmountD r)).isOk = false →
      ∃ issues, validate_batch d (pre ++ r :: post) config = .error issues ∧
        overflowIssue r.row_number ∈ issues) := by
  constructor
  · intro d rows config b h
    unfold validate_batch at h
    by_cases hemp :
        (runRows d config.network (initState rows config) rows).issues.isEmpty
    · rw [if_pos hemp] at h
      cases htot :
          (runRows d config.network (initState rows config) rows).total with
      | none =>
        rw [htot] at h
        exact absurd h (by simp)
      | some t =>
        rw [htot] at h
        have hb := Except.ok.inj h
        subst hb
        have hrec := runRows_no_issues d config.network rows
          (initState rows config) (by simpa [List.isEmpty_iff] using hemp)
        unfold sum_total
        show sum_total_go none
          (((runRows d config.network (initState rows config) rows).validated.map
            (fun v => v.recipient.amount))) = _
        rw [hrec.1]
        have : (initState rows config).validated = [] := rfl
        rw [this]
        simp only [List.map_nil, List.nil_append]
        have h2 := hrec.2
        rw [show (initState rows config).total = none from rfl] at h2
        rw [h2, htot]
    · rw [if_neg hemp] at h
      exact absurd h (by simp)
  · intro d config pre r post s hpre hr hsum hof
    obtain ⟨ae, hae⟩ : ∃ ae, checked_add s (rowAmountD r) = .error ae := by
      cases hca : checked_add s (rowAmountD r) with
      | ok v => rw [hca] at hof; exact absurd hof (by simp [Except.isOk, Except.toBool])
      | error e => exact ⟨e, rfl⟩
    obtain ⟨ty, a, m, ha, ham, hm, hamt⟩ := RowOk.dest hr
    rw [hamt] at hae
    have hpretot := runRows_valid d config.network pre
      (initState (pre ++ r :: post) config) s hpre
      (by rw [show (initState (pre ++ r :: post) config).total = none from rfl]
          exact hsum)
    obtain ⟨hov_iss, _⟩ := processRow_ok_overflow ha ham hm hpretot.1 hae
    have hsplitrun : runRows d config.network
        (initState (pre ++ r :: post) config) (pre ++ r :: post) =
        runRows d config.network
          (processRow d config.network
            (runRows d config.network (initState (pre ++ r :: post) config)
              pre) r) post := by
      rw [runRows_append]
      rfl
    obtain ⟨ex, hex⟩ := runRows_issues_extend d config.network post
      (processRow d config.network
        (runRows d config.network (initState (pre ++ r :: post) config) pre) r)
    have hmem : overflowIssue r.row_number ∈
        (runRows d config.network (initState (pre ++ r :: post) config)
          (pre ++ r :: post)).issues := by
      rw [hsplitrun, hex, hov_iss]
      simp
    have hfin_ne : (runRows d config.network
        (initState (pre ++ r :: post) config) (pre ++ r :: post)).issues ≠ [] :=
      List.ne_nil_of_mem hmem
    refine ⟨(runRows d config.network (initState (pre ++ r :: post) config)
      (pre ++ r :: post)).issues, ?_, hmem⟩
    unfold validate_batch
    rw [if_neg (by simpa [List.isEmpty_iff] using hfin_ne)]

/-- Witness for C8: part one on the accepted batch `[ROW_OK]`, part two
on a MAX-supply row followed by a row that overflows the running sum. -/
theorem batch_total_checked_witness :
    (sum_total VB_OK.recipients = .ok VB_OK.total) ∧
      (∃ issues,
        validate_batch decodeAcceptT [ROW_MAX, rowOkAt 2] CFG_500 =
            .error issues ∧
          overflowIssue 2 ∈ issues) := by
  constructor
  · exact batch_total_checked.1 decodeAcceptT [ROW_OK] CFG_500 VB_OK
      (by decide)
  · exact batch_total_checked.2 decodeAcceptT CFG_500 [ROW_MAX] (rowOkAt 2)
      [] 2100000000000000
      (by
        intro row hrow
        rw [List.mem_singleton] at hrow
        subst hrow
        exact ⟨by decide, by decide, by decide⟩)
      ⟨by decide, by decide, by decide⟩ (by decide) (by decide)

/-! ### C6: the fragment codec round-trips -/

theorem encodeLoop_of_nextParts {sigma : Type} (E : UREncoderOps sigma) :
    ∀ (k : Nat) (st : sigma) (parts : List (List Char)),
      nextParts E k st = some parts → encodeLoop E k st = .ok parts := by
  intro k
  induction k with
  | zero =>
    intro st parts h
    have h0 : some ([] : List (List Char)) = some parts := h
    rw [← Option.some.inj h0]
    rfl
  | succ k ih =>
    intro st parts h
    unfold nextParts at h
    cases hnp : E.next_part st with
    | error e =>
      rw [hnp] at h
      exact absurd h (by simp)
    | ok pr =>
      obtain ⟨part, st2⟩ := pr
      rw [hnp] at h
      replace h : (match nextParts E k st2 with
          | some rest => some (part :: rest)
          | none => none) = some parts := h
      cases hrest : nextParts E k st2 with
      | none =>
        rw [hrest] at h
        exact absurd h (by simp)
      | some rest =>
        rw [hrest] at h
        have hpe : part :: rest = parts := Option.some.inj h
        show (match E.next_part st with
          | .error err =>
            .error ⟨.Handoff5006, str "failed to emit UR fragment: " ++ err⟩
          | .ok (part, st2) =>
            match encodeLoop E k st2 with
            | .error e => .error e
            | .ok rest => .ok (part :: rest)) = Except.ok parts
        rw [hnp]
        show (match encodeLoop E k st2 with
          | .error e => .error e
          | .ok rest => .ok (part :: rest)) = Except.ok parts
        rw [ih st2 rest hrest, ← hpe]

theorem nextParts_length {sigma : Type} (E : UREncoderOps sigma) :
    ∀ (k : Nat) (st : sigma) (parts : List (List Char)),
      nextParts E k st = some parts → parts.length = k := by
  intro k
  induction k with
  | zero =>
    intro st parts h
    have h0 : some ([] : List (List Char)) = some parts := h
    rw [← Option.some.inj h0]
    rfl
  | succ k ih =>
    intro st parts h
    unfold nextParts at h
    cases hnp : E.next_part st with
    | error e =>
      rw [hnp] at h
      exact absurd h (by simp)
    | ok pr =>
      obtain ⟨part, st2⟩ := pr
      rw [hnp] at h
      replace h : (match nextParts E k st2 with
          | some rest => some (part :: rest)
          | none => none) = some parts := h
      cases hrest : nextParts E k st2 with
      | none =>
        rw [hrest] at h
        exact absurd h (by simp)
      | some rest =>
        rw [hrest] at h
        rw [← Option.some.inj h, List.length_cons, ih st2 rest hrest]

theorem decodeLoop_of_receiveAll {delta : Type} (D : URDecoderOps delta) :
    ∀ (fs : List (List Char)) (st stF : delta),
      receiveAll D fs st = some stF → decodeLoop D fs st = .ok stF := by
  intro fs
  induction fs with
  | nil =>
    intro st stF h
    have h0 : some st = some stF := h
    rw [← Option.some.inj h0]
    rfl
  | cons f rest ih =>
    intro st stF h
    unfold receiveAll at h
    cases hr : D.receive st f with
    | error e =>
      rw [hr] at h
      exact absurd h (by simp)
    | ok st2 =>
      rw [hr] at h
      replace h : receiveAll D rest st2 = some stF := h
      show (match D.receive st f with
        | .error err =>
          .error ⟨.Handoff5007, str "failed to decode UR fragment: " ++ err⟩
        | .ok st2 => decodeLoop D rest st2) = Except.ok stF
      rw [hr]
      exact ih st2 stF h

/-- **C6.** ur_encoder.rs delegates the fragment framing to the
external `ur` crate.  For every implementation pair of that crate's
encoder and decoder interfaces satisfying the crate's round-trip
contract at a non-empty byte payload and a positive fragment size,
decoding the fragment list produced by `encode_ur_fragments` with
`decode_ur_fragments` succeeds and returns exactly the payload. -/
theorem ur_fragment_roundtrip {sigma delta : Type} (E : UREncoderOps sigma)
    (D : URDecoderOps delta) (payload : List Nat) (s : Nat)
    (hne : payload ≠ []) (hs : 0 < s)
    (hrt : URRoundTrips E D payload s) :
    ∃ frags, encode_ur_fragments E payload s = .ok frags ∧
      decode_ur_fragments D frags = .ok payload := by
  obtain ⟨st, parts, stFin, hbytes, hpos, hparts, hrecv, hmsg⟩ := hrt
  have hlen := nextParts_length E (E.fragment_count st) st parts hparts
  have hpne : parts ≠ [] := by
    intro h0
    rw [h0] at hlen
    simp at hlen
    omega
  refine ⟨parts, ?_, ?_⟩
  · unfold encode_ur_fragments
    rw [if_neg (by simpa [List.isEmpty_iff] using hne), if_neg (by omega)]
    rw [hbytes]
    show encodeLoop E (E.fragment_count st) st = Except.ok parts
    exact encodeLoop_of_nextParts E (E.fragment_count st) st parts hparts
  · unfold decode_ur_fragments
    rw [if_neg (by simpa [List.isEmpty_iff] using hpne)]
    rw [decodeLoop_of_receiveAll D parts D.dfltState stFin hrecv]
    show ((match D.message stFin with
      | .error err =>
        .error ⟨.Handoff5008, str "failed to finalize UR decode: " ++ err⟩
      | .ok none =>
        .error ⟨.Handoff5008,
          str "UR decoder is incomplete after all provided fragments"⟩
      | .ok (some msg) => .ok msg : Except TaxonomyError (List Nat))) =
      Except.ok payload
    rw [hmsg]

/-- Witness for C6: the demonstration codec instance satisfies the
crate contract at payload `[1, 2, 3, 4, 5]` and fragment size 2 (three
parts), and the program round-trips it. -/
theorem ur_fragment_roundtrip_witness :
    ∃ frags, encode_ur_fragments demoEnc [1, 2, 3, 4, 5] 2 = .ok frags ∧
      decode_ur_fragments demoDec frags = .ok [1, 2, 3, 4, 5] :=
  ur_fragment_roundtrip demoEnc demoDec [1, 2, 3, 4, 5] 2 (by decide)
    (by decide)
    ⟨([[1, 2], [3, 4], [5]], 1, 3),
     [str "ur:bytes/1-3/0102", str "ur:bytes/2-3/0304",
       str "ur:bytes/3-3/05"],
     [(1, 3, [1, 2]), (2, 3, [3, 4]), (3, 3, [5])],
     by decide, by decide, by decide, by decide, by decide⟩

end Laminar
